import Mathlib

/-!
Verification of the uwu-matrix dense matrix core (the `f64Mat` module of
`src/demo/p2/mesh.ts`, shared with `src/src/matrix.ts`) and of the fixed 4x4
transform layer (`mat4`, building on `f32Mat.init`).

Shallow embedding conventions:
* A JS `Float64Array` buffer is a `List` of scalars; the scalar type is `ℚ`
  for the numeric algorithms (JS doubles are rationals; decimal literals such
  as `1e-6` are taken at their decimal value), and `JSNum` (a rational, NaN,
  or a signed infinity) where IEEE special values matter (`equals`,
  constructor validation).
* A thrown `ValidationError` with `cause.reason = r` is `.error (.validation r)`;
  a thrown `SingularMatrixError` is `.error .singular`.
* Loops that fill a zero-initialised buffer are `List.foldl` over
  `List.range`, writing with `List.set` at the same index the source writes.
* Inside `inverse`/`determinant` every `valueAt` call has indices below
  `size` (the loop bounds), so the bounds guards of `valueAt` can never fire
  there; those internal reads are embedded as the unchecked read `getV`.
-/

/-- Error kinds of `src/src/errors.ts` as raised by the `f64Mat` module:
`ValidationError` carries its `cause.reason` string, `SingularMatrixError`
carries nothing. -/
inductive MatErr where
  | validation (reason : String)
  | singular
deriving DecidableEq, Repr

/-- The `f64Mat` record of `mesh.ts`: a column-major flat buffer `value`
plus the two dimension fields.  The JS `type` tag and `Symbol.toPrimitive`
slot carry no data and are dropped.  The scalar type is a parameter so that
the same structure serves the `ℚ` model and the `JSNum` model. -/
structure Mat (α : Type) where
  value : List α
  rowCount : Nat
  colCount : Nat
deriving DecidableEq, Repr

/-- A JS `number` as far as the matrix code observes it: a finite value
(modelled exactly as a rational), `NaN`, `Infinity` or `-Infinity`. -/
inductive JSNum where
  | num (q : ℚ)
  | nan
  | inf
  | negInf
deriving DecidableEq, Repr

/-- A fresh `Float64Array(n)` is zero-filled, so the default scalar is 0. -/
instance : Inhabited JSNum := ⟨.num 0⟩

/-- JS strict equality `===` on numbers: `NaN` differs from everything,
itself included; the infinities equal themselves. -/
def jsEq : JSNum → JSNum → Bool
  | .num a, .num b => decide (a = b)
  | .inf, .inf => true
  | .negInf, .negInf => true
  | _, _ => false

/-- JS subtraction on numbers: `NaN` propagates, `Infinity - Infinity` is
`NaN`, an infinity dominates a finite operand. -/
def jsSub : JSNum → JSNum → JSNum
  | .num a, .num b => .num (a - b)
  | .nan, _ => .nan
  | _, .nan => .nan
  | .inf, .inf => .nan
  | .inf, _ => .inf
  | .negInf, .negInf => .nan
  | .negInf, _ => .negInf
  | .num _, .inf => .negInf
  | .num _, .negInf => .inf

/-- JS `Math.abs`. -/
def jsAbs : JSNum → JSNum
  | .num a => .num |a|
  | .nan => .nan
  | _ => .inf

/-- JS `<` on numbers: any comparison with `NaN` is false. -/
def jsLt : JSNum → JSNum → Bool
  | .nan, _ => false
  | _, .nan => false
  | .num a, .num b => decide (a < b)
  | .num _, .inf => true
  | .num _, .negInf => false
  | .inf, _ => false
  | .negInf, .negInf => false
  | .negInf, _ => true

/-- JS `Array.prototype.every` with the `(element, index)` callback:
`everyIdx p l i` traverses `l`, feeding `p` each element with its index
(counting from `i`). -/
def everyIdx {α : Type} (p : α → Nat → Bool) : List α → Nat → Bool
  | [], _ => true
  | v :: rest, i => p v i && everyIdx p rest (i + 1)

/-- `init` of `mesh.ts` (also `f32Mat.init`, which the 4x4 layer calls):
wraps a flat buffer and the two counts with NO validity check — the buffer
length is whatever the caller passed ("この関数は値やサイズの妥当性チェックを行わない"). -/
def init {α : Type} (value : List α) (rowCount colCount : Nat) : Mat α :=
  ⟨value, rowCount, colCount⟩

/-- `is2dNumberArray` of `src/src/common.ts`: `Array.isArray(value) &&
value.length > 0 && value.every(row => Array.isArray(row) && row.every(cell
=> typeof cell === "number"))`.  In the typed embedding the `Array.isArray`
and `typeof` tests hold for every element — in JS, `typeof NaN` and
`typeof Infinity` are both `"number"` — so only the non-emptiness test
remains. -/
def is2dNumberArray {α : Type} (rows : List (List α)) : Bool :=
  decide (0 < rows.length)

/-- `fromRowMajor` of `mesh.ts`: validate with `is2dNumberArray`, demand all
rows as long as the first, then transpose into a zero-filled column-major
buffer with `value[col * rowCount + row] = rowMajor[row][col]`. -/
def fromRowMajor {α : Type} [Inhabited α] (rowMajor : List (List α)) :
    Except MatErr (Mat α) :=
  if !is2dNumberArray rowMajor then .error (.validation "not2dNumberArray")
  else if !rowMajor.all (fun row => row.length == (rowMajor.headD []).length) then
    .error (.validation "columnsHaveDifferentRowCounts")
  else
    let rowCount := rowMajor.length
    let colCount := (rowMajor.headD []).length
    let value := (List.range colCount).foldl
      (fun v col => (List.range rowCount).foldl
        (fun v row =>
          v.set (col * rowCount + row) ((rowMajor.getD row []).getD col default))
        v)
      (List.replicate (rowCount * colCount) default)
    .ok ⟨value, rowCount, colCount⟩

/-- `getClone` of `mesh.ts` spreads the record and copies the buffer with
`Float64Array.from`; in the pure model copying a list is the identity. -/
def getClone (matrix : Mat ℚ) : Mat ℚ :=
  { matrix with value := matrix.value }

/-- The buffer `getIdentity` fills: `new Float64Array(size * size).fill(0)`
then `result[i * size + i] = 1` for each `i < size`. -/
def idMat (size : Nat) : Mat ℚ :=
  ⟨(List.range size).foldl (fun v i => v.set (i * size + i) 1)
      (List.replicate (size * size) 0),
    size, size⟩

/-- `getIdentity` of `mesh.ts`: `ValidationError` (reason `invalidSize`) when
`size <= 0` — with a `Nat` size, when `size = 0` — else the identity. -/
def getIdentity (size : Nat) : Except MatErr (Mat ℚ) :=
  if size = 0 then .error (.validation "invalidSize") else .ok (idMat size)

/-- `toRowMajor2dArray` of `mesh.ts`: row `row` is
`[value[col * rowCount + row] | col < colCount]`. -/
def toRowMajor2dArray (matrix : Mat ℚ) : List (List ℚ) :=
  (List.range matrix.rowCount).map (fun row =>
    (List.range matrix.colCount).map (fun col =>
      matrix.value.getD (col * matrix.rowCount + row) 0))

/-- `valueAt` of `mesh.ts`: 0-based, the column index is range-checked first,
then the row index (each failure a `ValidationError` with reason
`outOfBounds`); in range it reads `value[columnIndex * rowCount + rowIndex]`.
Indices are `ℤ` since JS callers can pass negative numbers. -/
def valueAt (matrix : Mat ℚ) (rowIndex columnIndex : ℤ) : Except MatErr ℚ :=
  if columnIndex < 0 ∨ (matrix.colCount : ℤ) ≤ columnIndex then
    .error (.validation "outOfBounds")
  else if rowIndex < 0 ∨ (matrix.rowCount : ℤ) ≤ rowIndex then
    .error (.validation "outOfBounds")
  else
    .ok (matrix.value.getD (columnIndex.toNat * matrix.rowCount + rowIndex.toNat) 0)

/-- `multiply` of `mesh.ts`: `ValidationError` (reason `sizeMismatch`) unless
`a.colCount == b.rowCount`; else the triple loop writing
`value[col * a.rowCount + row] = Σ_k a.value[k * a.rowCount + row] *
b.value[col * b.rowCount + k]` into a zero-filled
`a.rowCount * b.colCount` buffer. -/
def multiply (a b : Mat ℚ) : Except MatErr (Mat ℚ) :=
  if a.colCount ≠ b.rowCount then .error (.validation "sizeMismatch")
  else
    let value := (List.range a.rowCount).foldl
      (fun v row => (List.range b.colCount).foldl
        (fun v col =>
          let sum := (List.range a.colCount).foldl
            (fun sum k =>
              sum + a.value.getD (k * a.rowCount + row) 0 *
                b.value.getD (col * b.rowCount + k) 0)
            0
          v.set (col * a.rowCount + row) sum)
        v)
      (List.replicate (a.rowCount * b.colCount) 0)
    .ok ⟨value, a.rowCount, b.colCount⟩

/-- `equals` of `mesh.ts` over the `ℚ` model.  The default argument
`precisionExponent = Infinity` is modelled as `none`: that branch compares
with `===` elementwise; `some e` compares `|a_i - b_i| < 10 ^ (-e)`.
`b.value[i]` past the end of `b` is `undefined`, and both `v === undefined`
and `|v - undefined| < eps` are false. -/
def equals (a b : Mat ℚ) (precisionExponent : Option ℤ) : Bool :=
  if a.rowCount ≠ b.rowCount ∨ a.colCount ≠ b.colCount then false
  else
    match precisionExponent with
    | none =>
      everyIdx (fun v i =>
        match b.value[i]? with
        | some w => decide (v = w)
        | none => false) a.value 0
    | some e =>
      let epsilon : ℚ := 10 ^ (-e)
      everyIdx (fun v i =>
        match b.value[i]? with
        | some w => decide (|v - w| < epsilon)
        | none => false) a.value 0

/-- `equals` of `mesh.ts` over the `JSNum` model, where the IEEE behaviour
of `===`, subtraction, `Math.abs` and `<` on `NaN`/infinities is explicit. -/
def jsEquals (a b : Mat JSNum) (precisionExponent : Option ℤ) : Bool :=
  if a.rowCount ≠ b.rowCount ∨ a.colCount ≠ b.colCount then false
  else
    match precisionExponent with
    | none =>
      everyIdx (fun v i =>
        match b.value[i]? with
        | some w => jsEq v w
        | none => false) a.value 0
    | some e =>
      let epsilon : JSNum := .num (10 ^ (-e))
      everyIdx (fun v i =>
        match b.value[i]? with
        | some w => jsLt (jsAbs (jsSub v w)) epsilon
        | none => false) a.value 0

/-- Unchecked column-major read `value[c * rowCount + r]`: the embedding of
the `valueAt` calls inside the elimination loops, whose indices are always
in range. -/
def getV (m : Mat ℚ) (r c : Nat) : ℚ :=
  m.value.getD (c * m.rowCount + r) 0

/-- `swapRows` of `mesh.ts`: no-op when `row1 === row2`, else exchanges
`value[col * rowCount + row1]` and `value[col * rowCount + row2]` for every
column. -/
def swapRows (m : Mat ℚ) (row1 row2 : Nat) : Mat ℚ :=
  if row1 = row2 then m
  else
    { m with value := ((List.range m.colCount).foldl
        (fun v col =>
          let i1 := col * m.rowCount + row1
          let i2 := col * m.rowCount + row2
          let temp := v.getD i1 0
          (v.set i1 (v.getD i2 0)).set i2 temp)
        m.value) }

/-- `subtractScaledRow` of `mesh.ts`:
`value[idxTarget] -= value[idxSource] * scalar` across all columns. -/
def subtractScaledRow (m : Mat ℚ) (targetRowIndex sourceRowIndex : Nat)
    (scalar : ℚ) : Mat ℚ :=
  { m with value := ((List.range m.colCount).foldl
      (fun v col =>
        let idxTarget := col * m.rowCount + targetRowIndex
        let idxSource := col * m.rowCount + sourceRowIndex
        v.set idxTarget (v.getD idxTarget 0 - v.getD idxSource 0 * scalar))
      m.value) }

/-- `scaleRow` of `mesh.ts`: `value[col * rowCount + row] *= scalar` across
all columns. -/
def scaleRow (m : Mat ℚ) (row : Nat) (scalar : ℚ) : Mat ℚ :=
  { m with value := ((List.range m.colCount).foldl
      (fun v col =>
        v.set (col * m.rowCount + row) (v.getD (col * m.rowCount + row) 0 * scalar))
      m.value) }

/-- The partial-pivoting scan both `inverse` and `determinant` run: start
from `(pivot, |m[pivot, pivot]|)` and for `i` from `pivot + 1` to `size - 1`
take `(i, |m[i, pivot]|)` whenever it strictly beats the best so far (so the
first row achieving the maximum wins). -/
def pivotScan (m : Mat ℚ) (size pivot : Nat) : Nat × ℚ :=
  ((List.range (size - (pivot + 1))).map (fun k => pivot + 1 + k)).foldl
    (fun acc i =>
      let val := |getV m i pivot|
      if acc.2 < val then (i, val) else acc)
    (pivot, |getV m pivot pivot|)

/-- The body of one `inverse` pivot step after the singularity check passed:
swap rows `pivot` and `maxRow` in both matrices when they differ, scale row
`pivot` by `1 / m[pivot, pivot]` in both, then for every row other than
`pivot` whose factor `m[row, pivot]` has `|factor| >= 1e-8`, subtract
`factor` times row `pivot` from it in both. -/
def invElim (size : Nat) (st : Mat ℚ × Mat ℚ) (pivot maxRow : Nat) :
    Mat ℚ × Mat ℚ :=
  let m := if maxRow ≠ pivot then swapRows st.1 pivot maxRow else st.1
  let inv := if maxRow ≠ pivot then swapRows st.2 pivot maxRow else st.2
  let pivotValue := getV m pivot pivot
  let m := scaleRow m pivot (1 / pivotValue)
  let inv := scaleRow inv pivot (1 / pivotValue)
  (List.range size).foldl
    (fun p row =>
      if row = pivot then p
      else
        let factor := getV p.1 row pivot
        if |factor| < 1 / 100000000 then p
        else (subtractScaledRow p.1 row pivot factor,
          subtractScaledRow p.2 row pivot factor))
    (m, inv)

/-- One iteration of the `inverse` pivot loop on the working pair
`(m, inv)`: run the scan, throw `SingularMatrixError` when the maximum
absolute value is below `1e-6`, otherwise eliminate. -/
def invStep (size : Nat) (st : Mat ℚ × Mat ℚ) (pivot : Nat) :
    Except MatErr (Mat ℚ × Mat ℚ) :=
  let scan := pivotScan st.1 size pivot
  if scan.2 < 1 / 1000000 then .error .singular
  else .ok (invElim size st pivot scan.1)

/-- `inverse` of `mesh.ts`: reject non-square input, clone the input, start
from the identity, and run the pivot loop for `pivot` from 0 to `size - 1`,
returning the accumulated `inv`. -/
def inverse (matrix : Mat ℚ) : Except MatErr (Mat ℚ) :=
  let size := matrix.colCount
  if matrix.rowCount ≠ size then .error (.validation "notSquare")
  else
    match getIdentity size with
    | .error e => .error e
    | .ok inv0 =>
      match (List.range size).foldlM (invStep size) (getClone matrix, inv0) with
      | .error e => .error e
      | .ok st => .ok st.2

/-- The `determinant` loop state: the working matrix and the running `det`
accumulator, plus two ghost fields recording the history the accumulator is
built from — the pivot values multiplied in, and how many row swaps
happened.  The ghost fields influence nothing. -/
structure DetState where
  m : Mat ℚ
  det : ℚ
  pivots : List ℚ
  swaps : Nat
deriving DecidableEq, Repr

/-- Initial `determinant` state: a clone of the input and `det = 1.0`. -/
def detInit (matrix : Mat ℚ) : DetState :=
  ⟨getClone matrix, 1, [], 0⟩

/-- The `determinant` branch taken when `|m[pivot, pivot]| < 1e-5`: scan
rows `pivot..size-1`; if the maximum absolute value is exactly zero, return
0 for the whole call (the `.error` carries the early return value);
otherwise swap rows when `maxRow != pivot`, negating `det` and counting the
swap. -/
def detPivotPhase (size : Nat) (st : DetState) (pivot : Nat) :
    Except ℚ DetState :=
  if |getV st.m pivot pivot| < 1 / 100000 then
    let scan := pivotScan st.m size pivot
    if scan.2 = 0 then .error 0
    else if scan.1 ≠ pivot then
      .ok { st with m := swapRows st.m pivot scan.1, det := st.det * (-1), swaps := st.swaps + 1 }
    else .ok st
  else .ok st

/-- The unconditional tail of a `determinant` pivot step: multiply `det` by
the (possibly refreshed) pivot value (recording it in the ghost trace),
scale row `pivot` by its reciprocal, and eliminate the rows strictly below
the pivot whose factor reaches `1e-8`. -/
def detElim (size : Nat) (st : DetState) (pivot : Nat) : DetState :=
  let pivotValue := getV st.m pivot pivot
  let st := { st with det := st.det * pivotValue, pivots := st.pivots ++ [pivotValue] }
  let m := scaleRow st.m pivot (1 / pivotValue)
  let m := ((List.range (size - (pivot + 1))).map (fun k => pivot + 1 + k)).foldl
    (fun m row =>
      let factor := getV m row pivot
      if |factor| < 1 / 100000000 then m
      else subtractScaledRow m row pivot factor)
    m
  { st with m := m }

/-- One iteration of the `determinant` pivot loop. -/
def detStep (size : Nat) (st : DetState) (pivot : Nat) : Except ℚ DetState :=
  match detPivotPhase size st pivot with
  | .error r => .error r
  | .ok st => .ok (detElim size st pivot)

/-- `determinant` of `mesh.ts`: reject non-square input, else run the pivot
loop; an early `return 0` surfaces as the `.error` of the fold and becomes
the result, otherwise the final `det` accumulator is returned. -/
def determinant (matrix : Mat ℚ) : Except MatErr ℚ :=
  if matrix.rowCount ≠ matrix.colCount then .error (.validation "notSquare")
  else
    let size := matrix.rowCount
    match (List.range size).foldlM (detStep size) (detInit matrix) with
    | .error r => .ok r
    | .ok st => .ok st.det

/-- The first `p` iterations of the `inverse` pivot loop on `m` (the state
they produce, or the singularity error one of them threw). -/
def invIter (m : Mat ℚ) (p : Nat) : Except MatErr (Mat ℚ × Mat ℚ) :=
  (List.range p).foldlM (invStep m.colCount) (getClone m, idMat m.colCount)

/-- The first `p` iterations of the `determinant` pivot loop on `m`. -/
def detIter (m : Mat ℚ) (p : Nat) : Except ℚ DetState :=
  (List.range p).foldlM (detStep m.rowCount) (detInit m)

/-- The whole `determinant` pivot loop on `m`. -/
def detRun (m : Mat ℚ) : Except ℚ DetState :=
  detIter m m.rowCount

/-- `determinant` hits its early `return 0`: at some pivot column `p` the
current pivot magnitude is below `1e-5` and the scan over rows
`p..size-1` finds exactly zero. -/
def detEarlyZero (m : Mat ℚ) : Prop :=
  ∃ p, p < m.rowCount ∧ ∃ st, detIter m p = .ok st ∧
    |getV st.m p p| < 1 / 100000 ∧ (pivotScan st.m m.rowCount p).2 = 0

/-! ### Heap model

The pure model above erases the mutation structure of the source.  To state
that no public operation modifies its argument matrices, the operations are
re-embedded with the `Float64Array` buffers held in an explicit heap: a list
of buffers, each matrix record holding the index of its buffer.  A JS
mutation `value[i] = x` becomes `List.set` on that one heap slot; `new
Float64Array(...)`/`Float64Array.from` append a fresh buffer.  Operations
return the heap alongside their result (also when they throw, since a JS
exception leaves the heap as it was at the throw site). -/

/-- The heap of live `Float64Array` buffers. -/
abbrev Heap := List (List ℚ)

/-- A matrix record in the heap model: `buf` indexes the heap slot holding
its column-major buffer. -/
structure HMat where
  buf : Nat
  rowCount : Nat
  colCount : Nat
deriving DecidableEq, Repr

/-- Read `value[c * rowCount + r]` of `m` from the heap. -/
def hRead (h : Heap) (m : HMat) (r c : Nat) : ℚ :=
  (h.getD m.buf []).getD (c * m.rowCount + r) 0

/-- Write `value[c * rowCount + r] = x` into the buffer of `m`. -/
def hWrite (h : Heap) (m : HMat) (r c : Nat) (x : ℚ) : Heap :=
  h.set m.buf ((h.getD m.buf []).set (c * m.rowCount + r) x)

/-- Append a fresh buffer, returning its index. -/
def hAlloc (h : Heap) (vals : List ℚ) : Heap × Nat :=
  (h ++ [vals], h.length)

namespace Store

/-- `swapRows` on the heap. -/
def swapRows (h : Heap) (m : HMat) (row1 row2 : Nat) : Heap :=
  if row1 = row2 then h
  else
    (List.range m.colCount).foldl
      (fun h col =>
        let temp := hRead h m row1 col
        let h := hWrite h m row1 col (hRead h m row2 col)
        hWrite h m row2 col temp)
      h

/-- `scaleRow` on the heap. -/
def scaleRow (h : Heap) (m : HMat) (row : Nat) (scalar : ℚ) : Heap :=
  (List.range m.colCount).foldl
    (fun h col => hWrite h m row col (hRead h m row col * scalar))
    h

/-- `subtractScaledRow` on the heap. -/
def subtractScaledRow (h : Heap) (m : HMat) (targetRowIndex sourceRowIndex : Nat)
    (scalar : ℚ) : Heap :=
  (List.range m.colCount).foldl
    (fun h col =>
      hWrite h m targetRowIndex col
        (hRead h m targetRowIndex col - hRead h m sourceRowIndex col * scalar))
    h

/-- `getClone` on the heap: `Float64Array.from` copies the buffer into a
fresh slot; the record fields are spread unchanged. -/
def getClone (h : Heap) (m : HMat) : Heap × HMat :=
  let a := hAlloc h (h.getD m.buf [])
  (a.1, { m with buf := a.2 })

/-- `getIdentity` on the heap: a fresh zero-filled `size * size` buffer with
ones written on the diagonal. -/
def getIdentity (h : Heap) (size : Nat) : Except MatErr (Heap × HMat) :=
  if size = 0 then .error (.validation "invalidSize")
  else
    let a := hAlloc h ((List.range size).foldl (fun v i => v.set (i * size + i) 1)
      (List.replicate (size * size) 0))
    .ok (a.1, ⟨a.2, size, size⟩)

/-- `add` on the heap: after `assertSameSize`, `a.value.map((v, i) => v +
b.value[i])` into a fresh buffer. -/
def add (h : Heap) (a b : HMat) : Heap × Except MatErr HMat :=
  if ¬(a.rowCount = b.rowCount ∧ a.colCount = b.colCount) then
    (h, .error (.validation "sizeMismatch"))
  else
    let buf := (h.getD a.buf []).enum.map
      (fun p => p.2 + (h.getD b.buf []).getD p.1 0)
    let al := hAlloc h buf
    (al.1, .ok ⟨al.2, a.rowCount, a.colCount⟩)

/-- `subtract` on the heap. -/
def subtract (h : Heap) (a b : HMat) : Heap × Except MatErr HMat :=
  if ¬(a.rowCount = b.rowCount ∧ a.colCount = b.colCount) then
    (h, .error (.validation "sizeMismatch"))
  else
    let buf := (h.getD a.buf []).enum.map
      (fun p => p.2 - (h.getD b.buf []).getD p.1 0)
    let al := hAlloc h buf
    (al.1, .ok ⟨al.2, a.rowCount, a.colCount⟩)

/-- `multiplyScalar` on the heap. -/
def multiplyScalar (h : Heap) (matrix : HMat) (scalar : ℚ) : Heap × HMat :=
  let buf := (h.getD matrix.buf []).map (fun v => v * scalar)
  let al := hAlloc h buf
  (al.1, ⟨al.2, matrix.rowCount, matrix.colCount⟩)

/-- `multiply` on the heap: reads both operand buffers, writes the fresh
result buffer. -/
def multiply (h : Heap) (a b : HMat) : Heap × Except MatErr HMat :=
  if a.colCount ≠ b.rowCount then (h, .error (.validation "sizeMismatch"))
  else
    let buf := (List.range a.rowCount).foldl
      (fun v row => (List.range b.colCount).foldl
        (fun v col =>
          let sum := (List.range a.colCount).foldl
            (fun sum k => sum + hRead h a row k * hRead h b k col)
            0
          v.set (col * a.rowCount + row) sum)
        v)
      (List.replicate (a.rowCount * b.colCount) 0)
    let al := hAlloc h buf
    (al.1, .ok ⟨al.2, a.rowCount, b.colCount⟩)

/-- `equals` on the heap: only reads, the heap comes back as it went in. -/
def equals (h : Heap) (a b : HMat) (precisionExponent : Option ℤ) :
    Heap × Bool :=
  (h,
    if a.rowCount ≠ b.rowCount ∨ a.colCount ≠ b.colCount then false
    else
      match precisionExponent with
      | none =>
        everyIdx (fun v i =>
          match (h.getD b.buf [])[i]? with
          | some w => decide (v = w)
          | none => false) (h.getD a.buf []) 0
      | some e =>
        let epsilon : ℚ := 10 ^ (-e)
        everyIdx (fun v i =>
          match (h.getD b.buf [])[i]? with
          | some w => decide (|v - w| < epsilon)
          | none => false) (h.getD a.buf []) 0)

/-- `toRowMajor2dArray` on the heap: read-only. -/
def toRowMajor2dArray (h : Heap) (matrix : HMat) : Heap × List (List ℚ) :=
  (h,
    (List.range matrix.rowCount).map (fun row =>
      (List.range matrix.colCount).map (fun col =>
        (h.getD matrix.buf []).getD (col * matrix.rowCount + row) 0)))

/-- The partial-pivoting scan reading from the heap. -/
def pivotScan (h : Heap) (m : HMat) (size pivot : Nat) : Nat × ℚ :=
  ((List.range (size - (pivot + 1))).map (fun k => pivot + 1 + k)).foldl
    (fun acc i =>
      let val := |hRead h m i pivot|
      if acc.2 < val then (i, val) else acc)
    (pivot, |hRead h m pivot pivot|)

/-- The row swap of an `inverse` pivot step: when the scanned `maxRow`
differs from `pivot`, swap rows `pivot` and `maxRow` in both working
buffers.  (`scan.1` is the `maxRow` of the scan run on `h`.) -/
def invSwapPhase (size : Nat) (mref iref : HMat) (h : Heap) (pivot : Nat) :
    Heap :=
  if (pivotScan h mref size pivot).1 ≠ pivot then
    Store.swapRows
      (Store.swapRows h mref pivot (pivotScan h mref size pivot).1)
      iref pivot (pivotScan h mref size pivot).1
  else h

/-- The elimination loop of an `inverse` pivot step: for every row other
than `pivot` whose factor (read before the row is touched) reaches `1e-8`,
subtract the scaled pivot row in both working buffers. -/
def invElimLoop (size : Nat) (mref iref : HMat) (h : Heap) (pivot : Nat) :
    Heap :=
  (List.range size).foldl
    (fun h row =>
      if row = pivot then h
      else
        if |hRead h mref row pivot| < 1 / 100000000 then h
        else
          Store.subtractScaledRow
            (Store.subtractScaledRow h mref row pivot (hRead h mref row pivot))
            iref row pivot (hRead h mref row pivot))
    h

/-- One `inverse` pivot step on the heap, mutating only the buffers of
`mref` (the clone) and `iref` (the identity); the singularity throw happens
before any write of the step, so the error carries the unmodified heap.
The pivot value is re-read after the swap (`pivotValue = m[pivot, pivot]`)
and its reciprocal scales row `pivot` of both buffers. -/
def invStep (size : Nat) (mref iref : HMat) (h : Heap) (pivot : Nat) :
    Except (Heap × MatErr) Heap :=
  if (pivotScan h mref size pivot).2 < 1 / 1000000 then .error (h, .singular)
  else
    .ok (invElimLoop size mref iref
      (Store.scaleRow
        (Store.scaleRow
          (invSwapPhase size mref iref h pivot) mref pivot
          (1 / hRead (invSwapPhase size mref iref h pivot) mref pivot pivot))
        iref pivot
        (1 / hRead (invSwapPhase size mref iref h pivot) mref pivot pivot))
      pivot)

/-- `inverse` on the heap: clone the input, allocate the identity, run the
pivot loop on those two buffers, return the heap with the result (or with
the error). -/
def inverse (h : Heap) (matrix : HMat) : Heap × Except MatErr HMat :=
  let size := matrix.colCount
  if matrix.rowCount ≠ size then (h, .error (.validation "notSquare"))
  else
    let c := Store.getClone h matrix
    match Store.getIdentity c.1 size with
    | .error e => (c.1, .error e)
    | .ok hi =>
      match (List.range size).foldlM (invStep size c.2 hi.2) hi.1 with
      | .error he => (he.1, .error he.2)
      | .ok h2 => (h2, .ok hi.2)

/-- The elimination loop of a `determinant` pivot step: for the rows
strictly below `pivot` whose factor (read before the row is touched)
reaches `1e-8`, subtract the scaled pivot row. -/
def detElimLoop (size : Nat) (mref : HMat) (h : Heap) (pivot : Nat) : Heap :=
  ((List.range (size - (pivot + 1))).map (fun k => pivot + 1 + k)).foldl
    (fun h row =>
      if |hRead h mref row pivot| < 1 / 100000000 then h
      else Store.subtractScaledRow h mref row pivot (hRead h mref row pivot))
    h

/-- One `determinant` pivot step on the heap, mutating only the clone
`mref`; the early `return 0` (the `.error`) carries the heap at the return
site together with the returned value.  After the pivot phase, `det` is
multiplied by the re-read pivot value, row `pivot` is scaled by its
reciprocal, and the elimination loop runs. -/
def detStep (size : Nat) (mref : HMat) (st : Heap × ℚ) (pivot : Nat) :
    Except (Heap × ℚ) (Heap × ℚ) :=
  let h := st.1
  let phase : Except (Heap × ℚ) (Heap × ℚ) :=
    if |hRead h mref pivot pivot| < 1 / 100000 then
      let scan := Store.pivotScan h mref size pivot
      if scan.2 = 0 then .error (h, 0)
      else if scan.1 ≠ pivot then
        .ok (Store.swapRows h mref pivot scan.1, st.2 * (-1))
      else .ok (h, st.2)
    else .ok (h, st.2)
  match phase with
  | .error r => .error r
  | .ok st =>
    .ok (detElimLoop size mref
        (Store.scaleRow st.1 mref pivot (1 / hRead st.1 mref pivot pivot))
        pivot,
      st.2 * hRead st.1 mref pivot pivot)

/-- `determinant` on the heap: clone the input, run the pivot loop on the
clone. -/
def determinant (h : Heap) (matrix : HMat) : Heap × Except MatErr ℚ :=
  if matrix.rowCount ≠ matrix.colCount then (h, .error (.validation "notSquare"))
  else
    let size := matrix.rowCount
    let c := Store.getClone h matrix
    match (List.range size).foldlM (detStep size c.2) (c.1, 1) with
    | .error r => (r.1, .ok r.2)
    | .ok st => (st.1, .ok st.2)

end Store

/-- `getRotate` of the 4x4 transform layer (`mat4.ts`): the Rodrigues
rotation about `axis = [x, y, z]` by `rad` radians.  `Math.cos(rad)` and
`Math.sin(rad)` are the parameters `cos` and `sin` (the Lean reals have no
computable cosine, and nothing below depends on their values).  The source
passes `fMat.init` an array literal with THIRTEEN elements — the final
column's `0, 0, 1` entries are missing — and `init` performs no validity
check. -/
def getRotate (cos sin x y z : ℚ) : Mat ℚ :=
  let xx := x * x
  let yy := y * y
  let zz := z * z
  let xy := x * y
  let yz := y * z
  let zx := z * x
  let oneMinusCos := 1 - cos
  init
    [xx * oneMinusCos + cos,
      xy * oneMinusCos + z * sin,
      zx * oneMinusCos - y * sin,
      0,
      xy * oneMinusCos - z * sin,
      yy * oneMinusCos + cos,
      yz * oneMinusCos + x * sin,
      0,
      zx * oneMinusCos + y * sin,
      yz * oneMinusCos - x * sin,
      zz * oneMinusCos + cos,
      0,
      0]
    4 4

/-! ### List lemmas: reading buffers written by `List.set` folds -/

theorem getD_set_ne {α : Type} (l : List α) (i j : Nat) (x d : α) (h : i ≠ j) :
    (l.set i x).getD j d = l.getD j d := by
  simp [List.getD_eq_getElem?_getD, List.getElem?_set_ne h]

theorem getD_set_self {α : Type} (l : List α) (i : Nat) (x d : α)
    (h : i < l.length) :
    (l.set i x).getD i d = x := by
  simp [List.getD_eq_getElem?_getD, List.getElem?_set_self', h]

theorem getD_replicate_of_lt {α : Type} (n j : Nat) (x d : α) (h : j < n) :
    (List.replicate n x).getD j d = x := by
  simp [List.getD_eq_getElem?_getD, List.getElem?_replicate, h]

theorem getD_append_left {α : Type} (l1 l2 : List α) (j : Nat) (d : α)
    (h : j < l1.length) :
    (l1 ++ l2).getD j d = l1.getD j d := by
  simp [List.getD_eq_getElem?_getD, List.getElem?_append_left h]

theorem getElem_eq_getD {α : Type} (l : List α) (i : Nat) (d : α)
    (h : i < l.length) :
    l[i] = l.getD i d := by
  rw [List.getD_eq_getElem?_getD, List.getElem?_eq_getElem h]
  rfl

theorem getElem?_eq_some_getD {α : Type} (l : List α) (i : Nat) (d : α)
    (h : i < l.length) :
    l[i]? = some (l.getD i d) := by
  rw [List.getElem?_eq_getElem h, getElem_eq_getD l i d h]

theorem map_range_getD {α : Type} (n i : Nat) (f : Nat → α) (d : α) (h : i < n) :
    ((List.range n).map f).getD i d = f i := by
  simp [List.getD_eq_getElem?_getD, List.getElem?_map, List.getElem?_range h]

theorem length_foldl_set {α β : Type} (ix : β → Nat) (g : β → α) :
    ∀ (ps : List β) (v0 : List α),
      (ps.foldl (fun v p => v.set (ix p) (g p)) v0).length = v0.length := by
  intro ps
  induction ps with
  | nil => intro v0; rfl
  | cons p rest ih =>
    intro v0
    rw [List.foldl_cons, ih]
    simp

theorem foldl_set_untouched {α β : Type} (ix : β → Nat) (g : β → α) (j : Nat)
    (d : α) :
    ∀ (ps : List β) (v0 : List α), (∀ p ∈ ps, ix p ≠ j) →
      (ps.foldl (fun v p => v.set (ix p) (g p)) v0).getD j d = v0.getD j d := by
  intro ps
  induction ps with
  | nil => intro v0 _; rfl
  | cons p rest ih =>
    intro v0 hp
    rw [List.foldl_cons, ih _ (fun q hq => hp q (List.mem_cons_of_mem p hq)),
      getD_set_ne _ _ _ _ _ (hp p (List.mem_cons_self p rest))]

theorem foldl_set_written {α β : Type} (ix : β → Nat) (g : β → α) (d : α) :
    ∀ (ps : List β) (v0 : List α) (r : β), r ∈ ps → ix r < v0.length →
      (∀ p ∈ ps, ix p = ix r → p = r) →
      (ps.foldl (fun v p => v.set (ix p) (g p)) v0).getD (ix r) d = g r := by
  intro ps
  induction ps with
  | nil => intro v0 r hr _ _; exact absurd hr (List.not_mem_nil r)
  | cons p rest ih =>
    intro v0 r hr hlt huniq
    rw [List.foldl_cons]
    by_cases hmem : r ∈ rest
    · exact ih _ r hmem (by simpa using hlt)
        (fun q hq hixq => huniq q (List.mem_cons_of_mem p hq) hixq)
    · have hrp : r = p := by
        rcases List.mem_cons.mp hr with h1 | h2
        · exact h1
        · exact absurd h2 hmem
      subst hrp
      rw [foldl_set_untouched ix g (ix r) d rest _ ?_]
      · exact getD_set_self v0 (ix r) (g r) d hlt
      · intro q hq hixq
        exact hmem (huniq q (List.mem_cons_of_mem r hq) hixq ▸ hq)

theorem length_foldl_preserve {α β : Type} (f : List α → β → List α)
    (hf : ∀ v b, (f v b).length = v.length) :
    ∀ (l : List β) (v0 : List α), (l.foldl f v0).length = v0.length := by
  intro l
  induction l with
  | nil => intro v0; rfl
  | cons b rest ih => intro v0; rw [List.foldl_cons, ih, hf]

theorem colmajor_lt {M P c r : Nat} (hr : r < M) (hc : c < P) :
    c * M + r < M * P := by
  calc c * M + r < c * M + M := by omega
    _ = (c + 1) * M := by ring
    _ ≤ P * M := Nat.mul_le_mul_right M hc
    _ = M * P := Nat.mul_comm P M

theorem colmajor_inj {M c c2 r r2 : Nat} (h1 : r < M) (h2 : r2 < M)
    (he : c * M + r = c2 * M + r2) : c = c2 ∧ r = r2 := by
  have hM : 0 < M := by omega
  have hr : r = r2 := by
    have e1 : (r + c * M) % M = r := by
      rw [Nat.add_mul_mod_self_right, Nat.mod_eq_of_lt h1]
    have e2 : (r2 + c2 * M) % M = r2 := by
      rw [Nat.add_mul_mod_self_right, Nat.mod_eq_of_lt h2]
    have he2 : r + c * M = r2 + c2 * M := by omega
    rw [← e1, he2, e2]
  refine ⟨?_, hr⟩
  have hcM : c * M = c2 * M := by omega
  exact Nat.eq_of_mul_eq_mul_right hM hcM

theorem colmajor_decomp {M P j : Nat} (h : j < M * P) :
    j % M < M ∧ j / M < P ∧ j = (j / M) * M + j % M := by
  have hM : 0 < M := by
    rcases Nat.eq_zero_or_pos M with h0 | h0
    · subst h0; simp at h
    · exact h0
  refine ⟨Nat.mod_lt j hM, ?_, ?_⟩
  · rw [Nat.div_lt_iff_lt_mul hM, Nat.mul_comm]
    exact h
  · have h2 := Nat.div_add_mod j M
    rw [Nat.mul_comm] at h2
    omega

theorem foldl2_set_grid {α : Type} (ix : Nat → Nat → Nat) (g : Nat → Nat → α)
    (d : α) (I : Nat) :
    ∀ (O : Nat) (v0 : List α),
      (∀ o o2 i i2, o < O → o2 < O → i < I → i2 < I →
        ix o i = ix o2 i2 → o = o2 ∧ i = i2) →
      (∀ o i, o < O → i < I → ix o i < v0.length) →
      ∀ x y, x < O → y < I →
        ((List.range O).foldl
          (fun v o => (List.range I).foldl (fun v i => v.set (ix o i) (g o i)) v)
          v0).getD (ix x y) d = g x y := by
  intro O
  induction O with
  | zero => intro v0 _ _ x y hx _; omega
  | succ n ih =>
    intro v0 hinj hbound x y hx hy
    rw [List.range_succ, List.foldl_append, List.foldl_cons, List.foldl_nil]
    have hplen :
        ((List.range n).foldl
          (fun v o => (List.range I).foldl (fun v i => v.set (ix o i) (g o i)) v)
          v0).length = v0.length := by
      refine length_foldl_preserve _ ?_ (List.range n) v0
      intro v b
      exact length_foldl_set (ix b) (g b) (List.range I) v
    by_cases hxn : x = n
    · subst hxn
      refine foldl_set_written (ix x) (g x) d (List.range I) _ y
        (List.mem_range.mpr hy) ?_ ?_
      · rw [hplen]
        exact hbound x y hx hy
      · intro i hi hixi
        exact (hinj x x i y hx hx (List.mem_range.mp hi) hy hixi).2
    · have hxlt : x < n := by omega
      rw [foldl_set_untouched (ix n) (g n) (ix x y) d (List.range I) _ ?_]
      · exact ih v0
          (fun o o2 i i2 ho ho2 hi hi2 he =>
            hinj o o2 i i2 (by omega) (by omega) hi hi2 he)
          (fun o i ho hi => hbound o i (by omega) hi) x y hxlt hy
      · intro i hi he
        exact hxn ((hinj n x i y (by omega) hx (List.mem_range.mp hi) hy he).1).symm

/-! ### Representation lemmas for the constructed buffers -/

theorem fromRowMajor_ok_iff {α : Type} [Inhabited α] (rows : List (List α)) :
    (∃ e, fromRowMajor rows = .error e) ↔
      (rows.length = 0 ∨ ∃ row ∈ rows, row.length ≠ (rows.headD []).length) := by
  unfold fromRowMajor
  by_cases h1 : is2dNumberArray rows
  · rw [if_neg (by simp [h1])]
    by_cases h2 : rows.all (fun row => row.length == (rows.headD []).length)
    · rw [if_neg (by simp only [h2]; decide)]
      simp only [is2dNumberArray, decide_eq_true_eq] at h1
      constructor
      · rintro ⟨e, he⟩
        exact absurd he (by simp)
      · rintro (hlen | ⟨row, hrow, hne⟩)
        · omega
        · rw [List.all_eq_true] at h2
          exact absurd (by simpa using h2 row hrow) hne
    · rw [if_pos (by simpa using h2)]
      constructor
      · intro _
        right
        rw [List.all_eq_true] at h2
        push_neg at h2
        obtain ⟨row, hrow, hne⟩ := h2
        exact ⟨row, hrow, by simpa using hne⟩
      · intro _
        exact ⟨.validation "columnsHaveDifferentRowCounts", rfl⟩
  · rw [if_pos (by simpa using h1)]
    simp only [is2dNumberArray, decide_eq_true_eq, not_lt, Nat.le_zero] at h1
    constructor
    · intro _
      exact Or.inl h1
    · intro _
      exact ⟨.validation "not2dNumberArray", rfl⟩

theorem fromRowMajor_ok_elim {α : Type} [Inhabited α] {rows : List (List α)}
    {m2 : Mat α} (h : fromRowMajor rows = .ok m2) :
    0 < rows.length ∧
    (∀ row ∈ rows, row.length = (rows.headD []).length) ∧
    m2.rowCount = rows.length ∧ m2.colCount = (rows.headD []).length ∧
    m2.value.length = rows.length * (rows.headD []).length ∧
    ∀ row col, row < rows.length → col < (rows.headD []).length →
      m2.value.getD (col * rows.length + row) default =
        (rows.getD row []).getD col default := by
  unfold fromRowMajor at h
  by_cases h1 : is2dNumberArray rows
  · rw [if_neg (by simp [h1])] at h
    by_cases h2 : rows.all (fun row => row.length == (rows.headD []).length)
    · rw [if_neg (by simp only [h2]; decide)] at h
      simp only [is2dNumberArray, decide_eq_true_eq] at h1
      rw [List.all_eq_true] at h2
      obtain rfl : m2 = _ := (Except.ok.injEq _ _).mp h.symm
      refine ⟨h1, fun row hrow => by simpa using h2 row hrow, rfl, rfl, ?_, ?_⟩
      · rw [length_foldl_preserve _
          (fun v b => length_foldl_set _ _ (List.range rows.length) v)
          (List.range (rows.headD []).length)
          (List.replicate (rows.length * (rows.headD []).length) default)]
        simp [Nat.mul_comm]
      · intro row col hrow hcol
        refine foldl2_set_grid (fun o i => o * rows.length + i)
          (fun o i => (rows.getD i []).getD o default) default rows.length
          (rows.headD []).length _ ?_ ?_ col row hcol hrow
        · intro o o2 i i2 _ _ hi hi2 he
          have := colmajor_inj hi hi2 he
          omega
        · intro o i ho hi
          rw [List.length_replicate]
          exact colmajor_lt hi ho
    · rw [if_pos (by simpa using h2)] at h
      exact absurd h (by simp)
  · rw [if_pos (by simpa using h1)] at h
    exact absurd h (by simp)

theorem idMat_rowCount (n : Nat) : (idMat n).rowCount = n := rfl

theorem idMat_colCount (n : Nat) : (idMat n).colCount = n := rfl

theorem idMat_length (n : Nat) : (idMat n).value.length = n * n := by
  unfold idMat
  rw [length_foldl_set]
  simp

theorem idMat_entry {n r c : Nat} (hr : r < n) (hc : c < n) (d : ℚ) :
    (idMat n).value.getD (c * n + r) d = if r = c then 1 else 0 := by
  unfold idMat
  by_cases hrc : r = c
  · subst hrc
    rw [if_pos rfl]
    refine foldl_set_written (fun i => i * n + i) (fun _ => (1 : ℚ)) d
      (List.range n) _ r (List.mem_range.mpr hr) ?_ ?_
    · rw [List.length_replicate]
      exact colmajor_lt hr hr
    · intro q hq he
      exact (colmajor_inj (List.mem_range.mp hq) hr he).2
  · rw [if_neg hrc]
    rw [foldl_set_untouched (fun i => i * n + i) (fun _ => (1 : ℚ)) (c * n + r) d
      (List.range n) _ ?_]
    · exact getD_replicate_of_lt _ _ _ _ (colmajor_lt hr hc)
    · intro q hq he
      have h2 := colmajor_inj (List.mem_range.mp hq) hr he
      omega

theorem multiply_ok_elim {a b : Mat ℚ} (hab : a.colCount = b.rowCount) :
    ∃ r, multiply a b = .ok r ∧ r.rowCount = a.rowCount ∧
      r.colCount = b.colCount ∧ r.value.length = a.rowCount * b.colCount ∧
      ∀ row col, row < a.rowCount → col < b.colCount →
        r.value.getD (col * a.rowCount + row) 0 =
          (List.range a.colCount).foldl
            (fun sum k =>
              sum + a.value.getD (k * a.rowCount + row) 0 *
                b.value.getD (col * b.rowCount + k) 0)
            0 := by
  unfold multiply
  rw [if_neg (by omega)]
  refine ⟨_, rfl, rfl, rfl, ?_, ?_⟩
  · rw [length_foldl_preserve _
      (fun v b2 => length_foldl_set _ _ (List.range b.colCount) v)
      (List.range a.rowCount)
      (List.replicate (a.rowCount * b.colCount) 0)]
    simp
  · intro row col hrow hcol
    refine foldl2_set_grid (fun o i => i * a.rowCount + o)
      (fun o i => (List.range a.colCount).foldl
        (fun sum k =>
          sum + a.value.getD (k * a.rowCount + o) 0 *
            b.value.getD (i * b.rowCount + k) 0)
        0) 0 b.colCount a.rowCount _ ?_ ?_ row col hrow hcol
    · intro o o2 i i2 ho ho2 _ _ he
      have := colmajor_inj ho ho2 he
      omega
    · intro o i ho hi
      rw [List.length_replicate]
      exact colmajor_lt ho hi

/-! ### `Except` fold lemmas: where a pivot loop can throw -/

theorem except_bind_ok {σ σ2 ε : Type} (s : σ) (g : σ → Except ε σ2) :
    (Except.ok s).bind g = g s := rfl

theorem except_bind_error {σ σ2 ε : Type} (e : ε) (g : σ → Except ε σ2) :
    (Except.error e : Except ε σ).bind g = (.error e : Except ε σ2) := rfl

theorem except_foldlM_nil {σ β ε : Type} (f : σ → β → Except ε σ) (s : σ) :
    (([] : List β).foldlM f s) = .ok s := rfl

theorem except_foldlM_cons {σ β ε : Type} (f : σ → β → Except ε σ) (a : β)
    (l : List β) (s : σ) :
    ((a :: l).foldlM f s) = (f s a).bind fun s2 => l.foldlM f s2 := by
  show (f s a >>= fun s2 => l.foldlM f s2) = (f s a).bind fun s2 => l.foldlM f s2
  cases f s a <;> rfl

theorem except_foldlM_singleton {σ β ε : Type} (f : σ → β → Except ε σ)
    (a : β) (s : σ) :
    (([a] : List β).foldlM f s) = f s a := by
  rw [except_foldlM_cons]
  cases f s a <;> rfl

theorem except_foldlM_append {σ β ε : Type} (f : σ → β → Except ε σ) :
    ∀ (l1 l2 : List β) (s : σ),
      ((l1 ++ l2).foldlM f s) = (l1.foldlM f s).bind fun s2 => l2.foldlM f s2 := by
  intro l1
  induction l1 with
  | nil => intro l2 s; rfl
  | cons a rest ih =>
    intro l2 s
    rw [List.cons_append, except_foldlM_cons, except_foldlM_cons]
    cases hfa : f s a with
    | error e => rfl
    | ok s2 =>
      rw [except_bind_ok, except_bind_ok]
      exact ih l2 s2

theorem except_range_foldlM_error_iff {σ ε : Type} (f : σ → Nat → Except ε σ)
    (e : ε) :
    ∀ (n : Nat) (s0 : σ),
      ((List.range n).foldlM f s0 = .error e ↔
        ∃ p, p < n ∧ ∃ st, (List.range p).foldlM f s0 = .ok st ∧
          f st p = .error e) := by
  intro n
  induction n with
  | zero =>
    intro s0
    constructor
    · intro h
      rw [List.range_zero, except_foldlM_nil] at h
      exact absurd h (by simp)
    · rintro ⟨p, hp, _⟩
      omega
  | succ n2 ih =>
    intro s0
    rw [List.range_succ, except_foldlM_append]
    simp only [except_foldlM_singleton]
    cases hpre : (List.range n2).foldlM f s0 with
    | error e2 =>
      rw [except_bind_error]
      constructor
      · intro h
        obtain rfl : e2 = e := by simpa using h
        obtain ⟨p, hp, st, hpr, hstep⟩ := (ih s0).mp hpre
        exact ⟨p, by omega, st, hpr, hstep⟩
      · rintro ⟨p, hp, st, hpr, hstep⟩
        by_cases hpn : p < n2
        · have h2 : (List.range n2).foldlM f s0 = .error e :=
            (ih s0).mpr ⟨p, hpn, st, hpr, hstep⟩
          rw [hpre] at h2
          simpa using h2
        · have hpeq : p = n2 := by omega
          subst hpeq
          rw [hpre] at hpr
          exact absurd hpr (by simp)
    | ok s1 =>
      rw [except_bind_ok]
      constructor
      · intro hstep
        exact ⟨n2, by omega, s1, hpre, hstep⟩
      · rintro ⟨p, hp, st, hpr, hstep⟩
        by_cases hpn : p < n2
        · have h2 : (List.range n2).foldlM f s0 = .error e :=
            (ih s0).mpr ⟨p, hpn, st, hpr, hstep⟩
          rw [hpre] at h2
          exact absurd h2 (by simp)
        · have hpeq : p = n2 := by omega
          subst hpeq
          rw [hpre] at hpr
          obtain rfl : s1 = st := by simpa using hpr
          exact hstep

theorem except_foldlM_preserve {σ β ε : Type} (f : σ → β → Except ε σ)
    (P : σ → Prop) (hstep : ∀ s b s2, P s → f s b = .ok s2 → P s2) :
    ∀ (l : List β) (s0 s1 : σ), P s0 → l.foldlM f s0 = .ok s1 → P s1 := by
  intro l
  induction l with
  | nil =>
    intro s0 s1 h0 h
    rw [except_foldlM_nil] at h
    obtain rfl : s0 = s1 := by simpa using h
    exact h0
  | cons b rest ih =>
    intro s0 s1 h0 h
    rw [except_foldlM_cons] at h
    cases hfb : f s0 b with
    | error e =>
      rw [hfb, except_bind_error] at h
      exact absurd h (by simp)
    | ok s2 =>
      rw [hfb, except_bind_ok] at h
      exact ih s2 s1 (hstep s0 b s2 h0 hfb) h

/-! ### `everyIdx` and summation lemmas -/

theorem everyIdx_iff {α : Type} (p : α → Nat → Bool) :
    ∀ (l : List α) (n : Nat),
      everyIdx p l n = true ↔
        ∀ i (h : i < l.length), p (l.get ⟨i, h⟩) (n + i) = true := by
  intro l
  induction l with
  | nil =>
    intro n
    constructor
    · intro _ i h
      exact absurd h (by simp)
    · intro _
      rfl
  | cons v rest ih =>
    intro n
    constructor
    · intro h i hi
      rw [everyIdx, Bool.and_eq_true] at h
      match i with
      | 0 => simpa using h.1
      | i2 + 1 =>
        have := (ih (n + 1)).mp h.2 i2 (by simpa using hi)
        simpa [Nat.add_assoc, Nat.add_comm 1 i2] using this
    · intro h
      rw [everyIdx, Bool.and_eq_true]
      constructor
      · simpa using h 0 (by simp)
      · refine (ih (n + 1)).mpr ?_
        intro i2 hi2
        have := h (i2 + 1) (by simpa using hi2)
        simpa [Nat.add_assoc, Nat.add_comm 1 i2] using this

theorem foldl_add_map_sum (f : Nat → ℚ) :
    ∀ (l : List Nat) (s0 : ℚ),
      l.foldl (fun acc k => acc + f k) s0 = s0 + (l.map f).sum := by
  intro l
  induction l with
  | nil => intro s0; simp
  | cons a rest ih =>
    intro s0
    rw [List.foldl_cons, ih, List.map_cons, List.sum_cons]
    ring

theorem sum_map_delta_right (gf : Nat → ℚ) :
    ∀ (n col : Nat), col < n →
      ((List.range n).map (fun k => gf k * (if k = col then 1 else 0))).sum =
        gf col := by
  intro n
  induction n with
  | zero => intro col h; omega
  | succ n2 ih =>
    intro col h
    rw [List.range_succ, List.map_append, List.sum_append]
    by_cases hcol : col = n2
    · subst hcol
      have hzero :
          ((List.range col).map (fun k => gf k * (if k = col then 1 else 0))).sum
            = 0 := by
        refine List.sum_eq_zero ?_
        intro x hx
        obtain ⟨k, hk, rfl⟩ := List.mem_map.mp hx
        rw [if_neg (by have := List.mem_range.mp hk; omega)]
        ring
      rw [hzero]
      simp
    · have hlt : col < n2 := by omega
      rw [ih col hlt]
      simp [hcol]
      intro hc
      omega

theorem sum_map_delta_left (gf : Nat → ℚ) :
    ∀ (n row : Nat), row < n →
      ((List.range n).map (fun k => (if row = k then 1 else 0) * gf k)).sum =
        gf row := by
  intro n row h
  have : ((List.range n).map (fun k => (if row = k then 1 else 0) * gf k)) =
      ((List.range n).map (fun k => gf k * (if k = row then 1 else 0))) := by
    refine List.map_congr_left ?_
    intro k _
    by_cases hk : k = row
    · subst hk; simp
    · rw [if_neg hk, if_neg (fun hh => hk hh.symm)]; ring
  rw [this]
  exact sum_map_delta_right gf n row h

/-! ### Claim theorems -/

/-- C1: the shape invariant `value.length == rowCount * colCount` (with both
counts positive) is claimed for every matrix returned by the public
operations including `getRotate`.  It FAILS for `getRotate`: for every
input, the returned matrix carries a 13-element buffer against
`rowCount * colCount = 16` — the source's array literal is missing the final
column's `0, 0, 1`, and `init` does not validate. -/
theorem getRotate_breaks_shape_invariant :
    ∀ cos sin x y z : ℚ,
      (getRotate cos sin x y z).value.length = 13 ∧
      (getRotate cos sin x y z).rowCount * (getRotate cos sin x y z).colCount = 16 ∧
      (getRotate cos sin x y z).value.length ≠
        (getRotate cos sin x y z).rowCount * (getRotate cos sin x y z).colCount := by
  intro cos sin x y z
  exact ⟨rfl, rfl, show (13 : Nat) ≠ 16 by decide⟩

theorem jsEq_self (v : JSNum) : jsEq v v = true ↔ v ≠ JSNum.nan := by
  cases v <;> simp [jsEq]

/-- C10: with the default (exact) tolerance, `equals m m` is true exactly
when no entry of `m` is `NaN`: the exact branch compares entries with IEEE
`===`, under which `NaN` differs from itself. -/
theorem equals_self_iff_no_nan :
    ∀ m : Mat JSNum, (jsEquals m m none = true ↔ ∀ v ∈ m.value, v ≠ JSNum.nan) := by
  intro m
  unfold jsEquals
  rw [if_neg (by simp)]
  rw [everyIdx_iff]
  constructor
  · intro h v hv
    obtain ⟨⟨i, hi⟩, rfl⟩ := List.mem_iff_get.mp hv
    have h2 := h i hi
    rw [Nat.zero_add, List.getElem?_eq_getElem hi] at h2
    simp only [List.get_eq_getElem] at h2 ⊢
    exact (jsEq_self _).mp h2
  · intro h i hi
    rw [Nat.zero_add, List.getElem?_eq_getElem hi]
    simp only [List.get_eq_getElem]
    exact (jsEq_self _).mpr (h _ (List.getElem_mem hi))

/-- C6 counterexample: the claim says `fromRowMajor` rejects `NaN`
elements, but the validation is `typeof cell === "number"` and
`typeof NaN === "number"`, so `fromRowMajor([[NaN]])` succeeds. -/
theorem fromRowMajor_accepts_nan :
    fromRowMajor [[JSNum.nan]] = .ok ⟨[JSNum.nan], 1, 1⟩ := rfl

/-- C6 (amended): `fromRowMajor` fails exactly when the input is empty or
has inner sequences of unequal length; it succeeds on every non-empty
rectangular input of JS numbers, with `NaN` and infinite elements accepted
(never rejected). -/
theorem fromRowMajor_error_iff_empty_or_ragged :
    ∀ rows : List (List JSNum),
      ((∃ e, fromRowMajor rows = .error e) ↔
        (rows.length = 0 ∨ ∃ row ∈ rows, row.length ≠ (rows.headD []).length)) :=
  fun rows => fromRowMajor_ok_iff rows

/-- C4: `multiply(a, b)` raises the shape error exactly when
`a.colCount != b.rowCount`; otherwise it returns an
`a.rowCount`-by-`b.colCount` matrix whose entry at `(row, col)` is the sum
over `k` ascending from 0 of `a[row, k] * b[k, col]`; and
`multiply(fromRowMajor([[1,2],[3,4]]), fromRowMajor([[5,6],[7,8]]))` has
column-major buffer `[19, 43, 22, 50]`. -/
theorem multiply_spec :
    (∀ a b : Mat ℚ,
      ((∃ e, multiply a b = .error e) ↔ a.colCount ≠ b.rowCount)) ∧
    (∀ a b : Mat ℚ, a.colCount = b.rowCount →
      ∃ r, multiply a b = .ok r ∧ r.rowCount = a.rowCount ∧
        r.colCount = b.colCount ∧ r.value.length = a.rowCount * b.colCount ∧
        ∀ row col, row < a.rowCount → col < b.colCount →
          r.value.getD (col * a.rowCount + row) 0 =
            ((List.range a.colCount).map (fun k =>
              a.value.getD (k * a.rowCount + row) 0 *
                b.value.getD (col * b.rowCount + k) 0)).sum) ∧
    ((fromRowMajor [[1, 2], [3, 4]] : Except MatErr (Mat ℚ)).bind fun x =>
      (fromRowMajor [[5, 6], [7, 8]]).bind fun y => multiply x y) =
      .ok ⟨[19, 43, 22, 50], 2, 2⟩ := by
  refine ⟨?_, ?_, ?_⟩
  · intro a b
    constructor
    · rintro ⟨e, he⟩
      intro hab
      obtain ⟨r, hok, _⟩ := multiply_ok_elim hab
      rw [hok] at he
      exact absurd he (by simp)
    · intro hab
      refine ⟨.validation "sizeMismatch", ?_⟩
      unfold multiply
      rw [if_pos hab]
  · intro a b hab
    obtain ⟨r, hok, hr1, hr2, hlen, hentry⟩ := multiply_ok_elim hab
    refine ⟨r, hok, hr1, hr2, hlen, ?_⟩
    intro row col hrow hcol
    rw [hentry row col hrow hcol]
    have h2 := foldl_add_map_sum
      (fun k => a.value.getD (k * a.rowCount + row) 0 *
        b.value.getD (col * b.rowCount + k) 0)
      (List.range a.colCount) 0
    simpa using h2
  · norm_num [fromRowMajor, is2dNumberArray, multiply, List.range_succ,
      Except.bind, List.replicate_succ, List.set]

/-- C5: `valueAt` is 0-based and raises the out-of-bounds error exactly
when `rowIndex` is outside `[0, rowCount)` or `colIndex` is outside
`[0, colCount)`; for in-range indices it returns
`values[colIndex * rowCount + rowIndex]`, and on a matrix built by
`fromRowMajor(rows)` that is `rows[rowIndex][colIndex]`. -/
theorem valueAt_spec :
    (∀ (m : Mat ℚ) (r c : ℤ),
      (valueAt m r c = .error (.validation "outOfBounds") ↔
        (r < 0 ∨ (m.rowCount : ℤ) ≤ r ∨ c < 0 ∨ (m.colCount : ℤ) ≤ c))) ∧
    (∀ (m : Mat ℚ) (r c : ℤ),
      0 ≤ r → r < (m.rowCount : ℤ) → 0 ≤ c → c < (m.colCount : ℤ) →
      valueAt m r c = .ok (m.value.getD (c.toNat * m.rowCount + r.toNat) 0)) ∧
    (∀ (rows : List (List ℚ)) (m : Mat ℚ) (r c : ℤ),
      fromRowMajor rows = .ok m →
      0 ≤ r → r < (m.rowCount : ℤ) → 0 ≤ c → c < (m.colCount : ℤ) →
      valueAt m r c = .ok ((rows.getD r.toNat []).getD c.toNat 0)) := by
  refine ⟨?_, ?_, ?_⟩
  · intro m r c
    unfold valueAt
    by_cases h1 : c < 0 ∨ (m.colCount : ℤ) ≤ c
    · rw [if_pos h1]
      constructor
      · intro _
        omega
      · intro _
        rfl
    · rw [if_neg h1]
      by_cases h2 : r < 0 ∨ (m.rowCount : ℤ) ≤ r
      · rw [if_pos h2]
        constructor
        · intro _
          omega
        · intro _
          rfl
      · rw [if_neg h2]
        constructor
        · intro h
          exact absurd h (by simp)
        · intro h
          omega
  · intro m r c hr0 hr hc0 hc
    unfold valueAt
    rw [if_neg (by omega), if_neg (by omega)]
  · intro rows m r c hok hr0 hr hc0 hc
    obtain ⟨hpos, _, hrc, hcc, hlen, hentry⟩ := fromRowMajor_ok_elim hok
    unfold valueAt
    rw [if_neg (by omega), if_neg (by omega)]
    have hrn : r.toNat < rows.length := by omega
    have hcn : c.toNat < (rows.headD []).length := by omega
    have he := hentry r.toNat c.toNat hrn hcn
    rw [show (default : ℚ) = 0 from rfl] at he
    rw [hrc, he]

theorem colmajor_decomp2 {M P j : Nat} (h : j < M * P) :
    ∃ row col, row < M ∧ col < P ∧ j = col * M + row := by
  obtain ⟨h1, h2, h3⟩ := colmajor_decomp h
  exact ⟨j % M, j / M, h1, h2, h3⟩

theorem map_range_headD {α : Type} (n : Nat) (f : Nat → α) (d : α)
    (h : 0 < n) :
    ((List.range n).map f).headD d = f 0 := by
  cases n with
  | zero => omega
  | succ k =>
    rw [List.range_succ_eq_map]
    rfl

/-- `equals` with the default (exact) tolerance holds when the shapes agree,
the buffers have one length, and every position carries one value. -/
theorem equals_exact_of_entries (r m : Mat ℚ) (hrow : r.rowCount = m.rowCount)
    (hcol : r.colCount = m.colCount) (hlen : r.value.length = m.value.length)
    (hent : ∀ i, i < r.value.length → r.value.getD i 0 = m.value.getD i 0) :
    equals r m none = true := by
  unfold equals
  rw [if_neg (by omega)]
  rw [everyIdx_iff]
  intro i hi
  rw [Nat.zero_add, getElem?_eq_some_getD m.value i 0 (by omega)]
  simp only [List.get_eq_getElem]
  have h3 : r.value[i] = m.value.getD i 0 := by
    rw [getElem_eq_getD r.value i 0 hi]
    exact hent i hi
  simp [h3]

/-- C7: for every valid matrix `m`,
`multiply(m, identity(m.colCount)) equals m` and
`multiply(identity(m.rowCount), m) equals m` under the exact comparison. -/
theorem multiply_identity_law (m : Mat ℚ) (h1 : 0 < m.rowCount)
    (h2 : 0 < m.colCount) (hlen : m.value.length = m.rowCount * m.colCount) :
    (∃ i1 r1, getIdentity m.colCount = .ok i1 ∧ multiply m i1 = .ok r1 ∧
      equals r1 m none = true) ∧
    (∃ i2 r2, getIdentity m.rowCount = .ok i2 ∧ multiply i2 m = .ok r2 ∧
      equals r2 m none = true) := by
  constructor
  · obtain ⟨r, hok, hr1, hr2, hlen2, hentry⟩ :=
      multiply_ok_elim (a := m) (b := idMat m.colCount) rfl
    refine ⟨idMat m.colCount, r, ?_, hok, ?_⟩
    · unfold getIdentity
      rw [if_neg (by omega)]
    · have hr2b : r.colCount = m.colCount := by rw [hr2]; rfl
      have hlen2b : r.value.length = m.rowCount * m.colCount := by
        rw [hlen2]; rfl
      refine equals_exact_of_entries r m (by rw [hr1]) hr2b (by omega) ?_
      intro i hi
      have hi2 : i < m.rowCount * m.colCount := by omega
      obtain ⟨row, col, hrlt, hclt, rfl⟩ := colmajor_decomp2 hi2
      calc r.value.getD (col * m.rowCount + row) 0
          = (List.range m.colCount).foldl
              (fun sum k =>
                sum + m.value.getD (k * m.rowCount + row) 0 *
                  (idMat m.colCount).value.getD (col * m.colCount + k) 0)
              0 := hentry row col hrlt hclt
        _ = 0 + ((List.range m.colCount).map (fun k =>
              m.value.getD (k * m.rowCount + row) 0 *
                (idMat m.colCount).value.getD (col * m.colCount + k) 0)).sum :=
            foldl_add_map_sum _ _ 0
        _ = ((List.range m.colCount).map (fun k =>
              m.value.getD (k * m.rowCount + row) 0 *
                (if k = col then 1 else 0))).sum := by
            rw [Rat.zero_add]
            congr 1
            refine List.map_congr_left ?_
            intro k hk
            rw [idMat_entry (List.mem_range.mp hk) hclt]
        _ = m.value.getD (col * m.rowCount + row) 0 :=
            sum_map_delta_right _ m.colCount col hclt
  · obtain ⟨r, hok, hr1, hr2, hlen2, hentry⟩ :=
      multiply_ok_elim (a := idMat m.rowCount) (b := m) rfl
    refine ⟨idMat m.rowCount, r, ?_, hok, ?_⟩
    · unfold getIdentity
      rw [if_neg (by omega)]
    · have hr1b : r.rowCount = m.rowCount := by rw [hr1]; rfl
      have hlen2b : r.value.length = m.rowCount * m.colCount := by
        rw [hlen2]; rfl
      refine equals_exact_of_entries r m hr1b (by rw [hr2]) (by omega) ?_
      intro i hi
      have hi2 : i < m.rowCount * m.colCount := by omega
      obtain ⟨row, col, hrlt, hclt, rfl⟩ := colmajor_decomp2 hi2
      calc r.value.getD (col * m.rowCount + row) 0
          = (List.range m.rowCount).foldl
              (fun sum k =>
                sum + (idMat m.rowCount).value.getD (k * m.rowCount + row) 0 *
                  m.value.getD (col * m.rowCount + k) 0)
              0 := hentry row col hrlt hclt
        _ = 0 + ((List.range m.rowCount).map (fun k =>
              (idMat m.rowCount).value.getD (k * m.rowCount + row) 0 *
                m.value.getD (col * m.rowCount + k) 0)).sum :=
            foldl_add_map_sum _ _ 0
        _ = ((List.range m.rowCount).map (fun k =>
              (if row = k then 1 else 0) *
                m.value.getD (col * m.rowCount + k) 0)).sum := by
            rw [Rat.zero_add]
            congr 1
            refine List.map_congr_left ?_
            intro k hk
            rw [idMat_entry hrlt (List.mem_range.mp hk)]
        _ = m.value.getD (col * m.rowCount + row) 0 :=
            sum_map_delta_left _ m.rowCount row hrlt

theorem multiply_identity_law_witness :
    (∃ i1 r1, getIdentity (2 : Nat) = .ok i1 ∧
      multiply ⟨[1, 3, 2, 4], 2, 2⟩ i1 = .ok r1 ∧
      equals r1 ⟨[1, 3, 2, 4], 2, 2⟩ none = true) ∧
    (∃ i2 r2, getIdentity (2 : Nat) = .ok i2 ∧
      multiply i2 ⟨[1, 3, 2, 4], 2, 2⟩ = .ok r2 ∧
      equals r2 ⟨[1, 3, 2, 4], 2, 2⟩ none = true) :=
  multiply_identity_law ⟨[1, 3, 2, 4], 2, 2⟩ (by decide) (by decide) rfl

/-- C8: for every valid matrix `m`,
`fromRowMajor(toRowMajor2dArray(m)) equals m` under the exact comparison. -/
theorem fromRowMajor_toRowMajor_roundtrip (m : Mat ℚ) (h1 : 0 < m.rowCount)
    (h2 : 0 < m.colCount) (hlen : m.value.length = m.rowCount * m.colCount) :
    ∃ m2, fromRowMajor (toRowMajor2dArray m) = .ok m2 ∧
      equals m2 m none = true := by
  have hlenr : (toRowMajor2dArray m).length = m.rowCount := by
    simp [toRowMajor2dArray]
  have hhead : ((toRowMajor2dArray m).headD []).length = m.colCount := by
    unfold toRowMajor2dArray
    rw [map_range_headD _ _ _ h1]
    simp
  have hrect : ∀ row ∈ toRowMajor2dArray m,
      row.length = ((toRowMajor2dArray m).headD []).length := by
    intro row hr
    obtain ⟨k, hk, rfl⟩ := List.mem_map.mp hr
    rw [hhead]
    simp
  cases hcase : fromRowMajor (toRowMajor2dArray m) with
  | error e =>
    have h3 := (fromRowMajor_ok_iff (toRowMajor2dArray m)).mp ⟨e, hcase⟩
    rcases h3 with hempty | ⟨row, hrow, hne⟩
    · omega
    · exact absurd (hrect row hrow) hne
  | ok m2 =>
    obtain ⟨hpos, _, hrc, hcc, hlen2, hentry⟩ := fromRowMajor_ok_elim hcase
    have hlen2b : m2.value.length = m.rowCount * m.colCount := by
      rw [hlen2, hlenr, hhead]
    refine ⟨m2, rfl, ?_⟩
    refine equals_exact_of_entries m2 m (by omega) (by omega) (by omega) ?_
    intro i hi
    have hi2 : i < m.rowCount * m.colCount := by omega
    obtain ⟨row, col, hrlt, hclt, rfl⟩ := colmajor_decomp2 hi2
    have he := hentry row col (by omega) (by omega)
    rw [show (default : ℚ) = 0 from rfl] at he
    rw [hlenr] at he
    have hrow2 : (toRowMajor2dArray m).getD row [] =
        (List.range m.colCount).map
          (fun col2 => m.value.getD (col2 * m.rowCount + row) 0) := by
      unfold toRowMajor2dArray
      exact map_range_getD _ _ _ _ (by omega)
    rw [hrow2, map_range_getD _ _ _ _ hclt] at he
    exact he

theorem fromRowMajor_toRowMajor_roundtrip_witness :
    ∃ m2, fromRowMajor (toRowMajor2dArray (⟨[1, 3, 2, 4], 2, 2⟩ : Mat ℚ)) =
        .ok m2 ∧
      equals m2 ⟨[1, 3, 2, 4], 2, 2⟩ none = true :=
  fromRowMajor_toRowMajor_roundtrip ⟨[1, 3, 2, 4], 2, 2⟩ (by decide) (by decide) rfl

theorem invStep_error_iff (size : Nat) (st : Mat ℚ × Mat ℚ) (pivot : Nat)
    (e : MatErr) :
    invStep size st pivot = .error e ↔
      ((pivotScan st.1 size pivot).2 < 1 / 1000000 ∧ e = .singular) := by
  unfold invStep
  by_cases h : (pivotScan st.1 size pivot).2 < 1 / 1000000
  · rw [if_pos h]
    constructor
    · intro he
      cases he
      exact ⟨h, rfl⟩
    · rintro ⟨_, rfl⟩
      rfl
  · rw [if_neg h]
    constructor
    · intro he
      exact absurd he (by simp)
    · rintro ⟨hscan, _⟩
      exact absurd hscan h

/-- C2: `inverse` raises `SingularMatrixError` exactly when, at some pivot
column `p` of the elimination, the maximum absolute value scanned over rows
`p..size-1` of column `p` (of the working matrix) is below `1e-6`; when no
pivot column triggers this, `inverse` returns a matrix without raising. -/
theorem inverse_singular_iff (m : Mat ℚ) (hsq : m.rowCount = m.colCount)
    (hpos : 0 < m.colCount) :
    (inverse m = .error .singular ↔
      ∃ p, p < m.colCount ∧ ∃ st, invIter m p = .ok st ∧
        (pivotScan st.1 m.colCount p).2 < 1 / 1000000) ∧
    ((¬ ∃ p, p < m.colCount ∧ ∃ st, invIter m p = .ok st ∧
        (pivotScan st.1 m.colCount p).2 < 1 / 1000000) →
      ∃ r, inverse m = .ok r) := by
  have hinv : inverse m =
      match (List.range m.colCount).foldlM (invStep m.colCount)
        (getClone m, idMat m.colCount) with
      | .error e => .error e
      | .ok st => .ok st.2 := by
    unfold inverse getIdentity
    rw [if_neg (by omega), if_neg (by omega)]
  constructor
  · rw [hinv]
    cases hfold : (List.range m.colCount).foldlM (invStep m.colCount)
        (getClone m, idMat m.colCount) with
    | error e =>
      obtain ⟨p, hp, st, hpre, hstep⟩ :=
        (except_range_foldlM_error_iff _ e m.colCount _).mp hfold
      obtain ⟨hscan, rfl⟩ := (invStep_error_iff _ _ _ _).mp hstep
      constructor
      · intro _
        exact ⟨p, hp, st, hpre, hscan⟩
      · intro _
        rfl
    | ok st =>
      constructor
      · intro h
        exact absurd h (by simp)
      · rintro ⟨p, hp, st2, hpre, hscan⟩
        have hstep : invStep m.colCount st2 p = .error .singular :=
          (invStep_error_iff _ _ _ _).mpr ⟨hscan, rfl⟩
        have herr : (List.range m.colCount).foldlM (invStep m.colCount)
            (getClone m, idMat m.colCount) = .error .singular :=
          (except_range_foldlM_error_iff _ _ m.colCount _).mpr
            ⟨p, hp, st2, hpre, hstep⟩
        rw [hfold] at herr
        exact absurd herr (by simp)
  · intro hno
    rw [hinv]
    cases hfold : (List.range m.colCount).foldlM (invStep m.colCount)
        (getClone m, idMat m.colCount) with
    | error e =>
      obtain ⟨p, hp, st, hpre, hstep⟩ :=
        (except_range_foldlM_error_iff _ e m.colCount _).mp hfold
      obtain ⟨hscan, rfl⟩ := (invStep_error_iff _ _ _ _).mp hstep
      exact absurd ⟨p, hp, st, hpre, hscan⟩ hno
    | ok st =>
      exact ⟨st.2, rfl⟩

theorem inverse_singular_iff_witness :
    (inverse ⟨[1], 1, 1⟩ = .error .singular ↔
      ∃ p, p < (1 : Nat) ∧ ∃ st, invIter ⟨[1], 1, 1⟩ p = .ok st ∧
        (pivotScan st.1 1 p).2 < 1 / 1000000) ∧
    ((¬ ∃ p, p < (1 : Nat) ∧ ∃ st, invIter ⟨[1], 1, 1⟩ p = .ok st ∧
        (pivotScan st.1 1 p).2 < 1 / 1000000) →
      ∃ r, inverse ⟨[1], 1, 1⟩ = .ok r) :=
  inverse_singular_iff ⟨[1], 1, 1⟩ rfl (by decide)

theorem detStep_error_iff (size : Nat) (st : DetState) (pivot : Nat) (r : ℚ) :
    detStep size st pivot = .error r ↔
      (|getV st.m pivot pivot| < 1 / 100000 ∧
        (pivotScan st.m size pivot).2 = 0 ∧ r = 0) := by
  unfold detStep detPivotPhase
  by_cases h1 : |getV st.m pivot pivot| < 1 / 100000
  · rw [if_pos h1]
    by_cases h2 : (pivotScan st.m size pivot).2 = 0
    · rw [if_pos h2]
      constructor
      · intro he
        have he2 : (Except.error (0 : ℚ) : Except ℚ DetState) = .error r := he
        cases he2
        exact ⟨h1, h2, rfl⟩
      · rintro ⟨_, _, rfl⟩
        rfl
    · rw [if_neg h2]
      by_cases h3 : (pivotScan st.m size pivot).1 ≠ pivot
      · rw [if_pos h3]
        constructor
        · intro he
          exact absurd he (by simp)
        · rintro ⟨_, hscan, _⟩
          exact absurd hscan h2
      · rw [if_neg h3]
        constructor
        · intro he
          exact absurd he (by simp)
        · rintro ⟨_, hscan, _⟩
          exact absurd hscan h2
  · rw [if_neg h1]
    constructor
    · intro he
      exact absurd he (by simp)
    · rintro ⟨hpv, _, _⟩
      exact absurd hpv h1

theorem detStep_preserves_inv (size : Nat) :
    ∀ (st : DetState) (pivot : Nat) (st2 : DetState),
      st.det = (-1 : ℚ) ^ st.swaps * st.pivots.prod →
      detStep size st pivot = .ok st2 →
      st2.det = (-1 : ℚ) ^ st2.swaps * st2.pivots.prod := by
  intro st pivot st2 hP hstep
  unfold detStep at hstep
  cases hphase : detPivotPhase size st pivot with
  | error r =>
    rw [hphase] at hstep
    exact absurd hstep (by simp)
  | ok st1 =>
    rw [hphase] at hstep
    obtain rfl : detElim size st1 pivot = st2 := by simpa using hstep
    have hP1 : st1.det = (-1 : ℚ) ^ st1.swaps * st1.pivots.prod := by
      unfold detPivotPhase at hphase
      by_cases h1 : |getV st.m pivot pivot| < 1 / 100000
      · rw [if_pos h1] at hphase
        by_cases h2 : (pivotScan st.m size pivot).2 = 0
        · rw [if_pos h2] at hphase
          exact absurd hphase (by simp)
        · rw [if_neg h2] at hphase
          by_cases h3 : (pivotScan st.m size pivot).1 ≠ pivot
          · rw [if_pos h3] at hphase
            have hst1 : ({ st with m := swapRows st.m pivot (pivotScan st.m size pivot).1, det := st.det * (-1), swaps := st.swaps + 1 } : DetState) = st1 := by
              simpa using hphase
            rw [← hst1]
            simp only []
            rw [hP, pow_succ]
            ring
          · rw [if_neg h3] at hphase
            obtain rfl : st = st1 := by simpa using hphase
            exact hP
      · rw [if_neg h1] at hphase
        obtain rfl : st = st1 := by simpa using hphase
        exact hP
    unfold detElim
    simp only [List.prod_append, List.prod_cons, List.prod_nil]
    rw [hP1]
    ring

/-- C3: for every square matrix, `determinant` never raises; when at some
pivot column the current pivot magnitude is below `1e-5` and the scan over
rows `p..size-1` finds exactly zero, it returns 0 (the early return);
otherwise it returns the accumulated product of the recorded pivot values
with the sign flipped once per recorded row swap. -/
theorem determinant_total_spec (m : Mat ℚ) (hsq : m.rowCount = m.colCount) :
    ∃ d, determinant m = .ok d ∧
      ((detEarlyZero m ∧ d = 0) ∨
       (¬ detEarlyZero m ∧ ∃ st, detRun m = .ok st ∧ d = st.det ∧
         st.det = (-1 : ℚ) ^ st.swaps * st.pivots.prod)) := by
  have hdet : determinant m =
      match (List.range m.rowCount).foldlM (detStep m.rowCount) (detInit m) with
      | .error r => .ok r
      | .ok st => .ok st.det := by
    unfold determinant
    rw [if_neg (by omega)]
  cases hfold : (List.range m.rowCount).foldlM (detStep m.rowCount)
      (detInit m) with
  | error r =>
    obtain ⟨p, hp, st, hpre, hstep⟩ :=
      (except_range_foldlM_error_iff _ r _ _).mp hfold
    obtain ⟨hpv, hscan, rfl⟩ := (detStep_error_iff _ _ _ _).mp hstep
    refine ⟨0, ?_, Or.inl ⟨⟨p, hp, st, hpre, hpv, hscan⟩, rfl⟩⟩
    rw [hdet, hfold]
  | ok st =>
    have hP : st.det = (-1 : ℚ) ^ st.swaps * st.pivots.prod :=
      except_foldlM_preserve (detStep m.rowCount)
        (fun s => s.det = (-1 : ℚ) ^ s.swaps * s.pivots.prod)
        (fun s b s2 hs hst => detStep_preserves_inv m.rowCount s b s2 hs hst)
        (List.range m.rowCount) (detInit m) st (by simp [detInit, getClone])
        hfold
    refine ⟨st.det, ?_, Or.inr ⟨?_, st, hfold, rfl, hP⟩⟩
    · rw [hdet, hfold]
    · rintro ⟨p, hp, st2, hpre, hpv, hscan⟩
      have hstep : detStep m.rowCount st2 p = .error 0 :=
        (detStep_error_iff _ _ _ _).mpr ⟨hpv, hscan, rfl⟩
      have herr := (except_range_foldlM_error_iff (detStep m.rowCount) (0 : ℚ)
        m.rowCount (detInit m)).mpr ⟨p, hp, st2, hpre, hstep⟩
      rw [hfold] at herr
      exact absurd herr (by simp)

theorem determinant_total_spec_witness :
    ∃ d, determinant (⟨[1], 1, 1⟩ : Mat ℚ) = .ok d ∧
      ((detEarlyZero ⟨[1], 1, 1⟩ ∧ d = 0) ∨
       (¬ detEarlyZero ⟨[1], 1, 1⟩ ∧ ∃ st, detRun ⟨[1], 1, 1⟩ = .ok st ∧
         d = st.det ∧ st.det = (-1 : ℚ) ^ st.swaps * st.pivots.prod)) :=
  determinant_total_spec ⟨[1], 1, 1⟩ rfl

/-! ### Heap-model preservation lemmas -/

theorem hWrite_getD_ne (h : Heap) (m : HMat) (r c : Nat) (x : ℚ) (j : Nat)
    (hj : j ≠ m.buf) :
    (hWrite h m r c x).getD j [] = h.getD j [] :=
  getD_set_ne _ _ _ _ _ (fun he => hj he.symm)

theorem foldl_heap_preserve {β : Type} (f : Heap → β → Heap) (pr : Nat → Prop)
    (hf : ∀ h b j, pr j → (f h b).getD j [] = h.getD j []) :
    ∀ (l : List β) (h : Heap) (j : Nat), pr j →
      (l.foldl f h).getD j [] = h.getD j [] := by
  intro l
  induction l with
  | nil => intro h j _; rfl
  | cons b rest ih =>
    intro h j hj
    rw [List.foldl_cons, ih (f h b) j hj, hf h b j hj]

theorem store_swapRows_preserve (h : Heap) (m : HMat) (r1 r2 j : Nat)
    (hj : j ≠ m.buf) :
    (Store.swapRows h m r1 r2).getD j [] = h.getD j [] := by
  unfold Store.swapRows
  by_cases he : r1 = r2
  · rw [if_pos he]
  · rw [if_neg he]
    refine foldl_heap_preserve _ (fun j2 => j2 ≠ m.buf) ?_ (List.range m.colCount)
      h j hj
    intro h2 col j2 hj2
    calc (hWrite (hWrite h2 m r1 col (hRead h2 m r2 col)) m r2 col
          (hRead h2 m r1 col)).getD j2 []
        = (hWrite h2 m r1 col (hRead h2 m r2 col)).getD j2 [] :=
          hWrite_getD_ne _ _ _ _ _ _ hj2
      _ = h2.getD j2 [] := hWrite_getD_ne _ _ _ _ _ _ hj2

theorem store_scaleRow_preserve (h : Heap) (m : HMat) (row : Nat) (sc : ℚ)
    (j : Nat) (hj : j ≠ m.buf) :
    (Store.scaleRow h m row sc).getD j [] = h.getD j [] := by
  unfold Store.scaleRow
  refine foldl_heap_preserve _ (fun j2 => j2 ≠ m.buf) ?_ (List.range m.colCount)
    h j hj
  intro h2 col j2 hj2
  exact hWrite_getD_ne _ _ _ _ _ _ hj2

theorem store_subtractScaledRow_preserve (h : Heap) (m : HMat)
    (t s2 : Nat) (sc : ℚ) (j : Nat) (hj : j ≠ m.buf) :
    (Store.subtractScaledRow h m t s2 sc).getD j [] = h.getD j [] := by
  unfold Store.subtractScaledRow
  refine foldl_heap_preserve _ (fun j2 => j2 ≠ m.buf) ?_ (List.range m.colCount)
    h j hj
  intro h2 col j2 hj2
  exact hWrite_getD_ne _ _ _ _ _ _ hj2

theorem except_foldlM_proj_preserve {σ ε2 : Type} (f : σ → Nat → Except ε2 σ)
    (hpS : σ → Heap) (hpE : ε2 → Heap) (pr : Nat → Prop)
    (hok : ∀ s b s2 j, pr j → f s b = .ok s2 →
      (hpS s2).getD j [] = (hpS s).getD j [])
    (herr : ∀ s b e2 j, pr j → f s b = .error e2 →
      (hpE e2).getD j [] = (hpS s).getD j []) :
    ∀ (l : List Nat) (s : σ) (j : Nat), pr j →
      (match l.foldlM f s with
        | .ok s2 => (hpS s2).getD j []
        | .error e2 => (hpE e2).getD j []) = (hpS s).getD j [] := by
  intro l
  induction l with
  | nil => intro s j _; rfl
  | cons b rest ih =>
    intro s j hj
    rw [except_foldlM_cons]
    cases hfb : f s b with
    | error e2 =>
      rw [except_bind_error]
      exact herr s b e2 j hj hfb
    | ok s2 =>
      rw [except_bind_ok, ih s2 j hj]
      exact hok s b s2 j hj hfb

theorem invSwapPhase_preserve (size : Nat) (mref iref : HMat) (h : Heap)
    (pivot j : Nat) (hjm : j ≠ mref.buf) (hji : j ≠ iref.buf) :
    (Store.invSwapPhase size mref iref h pivot).getD j [] = h.getD j [] := by
  unfold Store.invSwapPhase
  by_cases hc : (Store.pivotScan h mref size pivot).1 ≠ pivot
  · rw [if_pos hc, store_swapRows_preserve _ _ _ _ _ hji,
      store_swapRows_preserve _ _ _ _ _ hjm]
  · rw [if_neg hc]

theorem invElimLoop_preserve (size : Nat) (mref iref : HMat) (h : Heap)
    (pivot j : Nat) (hjm : j ≠ mref.buf) (hji : j ≠ iref.buf) :
    (Store.invElimLoop size mref iref h pivot).getD j [] = h.getD j [] := by
  unfold Store.invElimLoop
  refine foldl_heap_preserve _ (fun j2 => j2 ≠ mref.buf ∧ j2 ≠ iref.buf) ?_
    (List.range size) h j ⟨hjm, hji⟩
  intro h2 row j2 hj2
  by_cases hr : row = pivot
  · rw [if_pos hr]
  · rw [if_neg hr]
    by_cases hf : |hRead h2 mref row pivot| < 1 / 100000000
    · rw [if_pos hf]
    · rw [if_neg hf, store_subtractScaledRow_preserve _ _ _ _ _ _ hj2.2,
        store_subtractScaledRow_preserve _ _ _ _ _ _ hj2.1]

theorem store_invStep_ok_preserve (size : Nat) (mref iref : HMat) :
    ∀ (h : Heap) (pivot : Nat) (h2 : Heap) (j : Nat),
      (j ≠ mref.buf ∧ j ≠ iref.buf) →
      Store.invStep size mref iref h pivot = .ok h2 →
      h2.getD j [] = h.getD j [] := by
  intro h pivot h2 j hj hstep
  unfold Store.invStep at hstep
  by_cases hscan : (Store.pivotScan h mref size pivot).2 < 1 / 1000000
  · rw [if_pos hscan] at hstep
    exact absurd hstep (by simp)
  · rw [if_neg hscan] at hstep
    obtain rfl : _ = h2 := (Except.ok.injEq _ _).mp hstep
    rw [invElimLoop_preserve _ _ _ _ _ _ hj.1 hj.2,
      store_scaleRow_preserve _ _ _ _ _ hj.2,
      store_scaleRow_preserve _ _ _ _ _ hj.1,
      invSwapPhase_preserve _ _ _ _ _ _ hj.1 hj.2]

theorem store_invStep_error_preserve (size : Nat) (mref iref : HMat) :
    ∀ (h : Heap) (pivot : Nat) (he : Heap × MatErr) (j : Nat),
      (j ≠ mref.buf ∧ j ≠ iref.buf) →
      Store.invStep size mref iref h pivot = .error he →
      he.1.getD j [] = h.getD j [] := by
  intro h pivot he j _ hstep
  unfold Store.invStep at hstep
  by_cases hscan : (Store.pivotScan h mref size pivot).2 < 1 / 1000000
  · rw [if_pos hscan] at hstep
    obtain rfl : _ = he := (Except.error.injEq _ _).mp hstep
    rfl
  · rw [if_neg hscan] at hstep
    exact absurd hstep (by simp)

theorem detElimLoop_preserve (size : Nat) (mref : HMat) (h : Heap)
    (pivot j : Nat) (hjm : j ≠ mref.buf) :
    (Store.detElimLoop size mref h pivot).getD j [] = h.getD j [] := by
  unfold Store.detElimLoop
  refine foldl_heap_preserve _ (fun j2 => j2 ≠ mref.buf) ?_ _ h j hjm
  intro h2 row j2 hj2
  by_cases hf : |hRead h2 mref row pivot| < 1 / 100000000
  · rw [if_pos hf]
  · rw [if_neg hf, store_subtractScaledRow_preserve _ _ _ _ _ _ hj2]

theorem store_detStep_ok_preserve (size : Nat) (mref : HMat) :
    ∀ (st : Heap × ℚ) (pivot : Nat) (st2 : Heap × ℚ) (j : Nat),
      j ≠ mref.buf → Store.detStep size mref st pivot = .ok st2 →
      st2.1.getD j [] = st.1.getD j [] := by
  intro st pivot st2 j hj hstep
  unfold Store.detStep at hstep
  simp only [] at hstep
  by_cases h1 : |hRead st.1 mref pivot pivot| < 1 / 100000
  · rw [if_pos h1] at hstep
    by_cases h2 : (Store.pivotScan st.1 mref size pivot).2 = 0
    · rw [if_pos h2] at hstep
      exact absurd hstep (by simp)
    · rw [if_neg h2] at hstep
      by_cases h3 : (Store.pivotScan st.1 mref size pivot).1 ≠ pivot
      · rw [if_pos h3] at hstep
        obtain rfl : _ = st2 := (Except.ok.injEq _ _).mp hstep
        show (Store.detElimLoop size mref (Store.scaleRow _ mref pivot _) pivot).getD j [] = _
        rw [detElimLoop_preserve _ _ _ _ _ hj, store_scaleRow_preserve _ _ _ _ _ hj]
        exact store_swapRows_preserve _ _ _ _ _ hj
      · rw [if_neg h3] at hstep
        obtain rfl : _ = st2 := (Except.ok.injEq _ _).mp hstep
        show (Store.detElimLoop size mref (Store.scaleRow _ mref pivot _) pivot).getD j [] = _
        rw [detElimLoop_preserve _ _ _ _ _ hj, store_scaleRow_preserve _ _ _ _ _ hj]
  · rw [if_neg h1] at hstep
    obtain rfl : _ = st2 := (Except.ok.injEq _ _).mp hstep
    show (Store.detElimLoop size mref (Store.scaleRow _ mref pivot _) pivot).getD j [] = _
    rw [detElimLoop_preserve _ _ _ _ _ hj, store_scaleRow_preserve _ _ _ _ _ hj]

theorem store_detStep_error_preserve (size : Nat) (mref : HMat) :
    ∀ (st : Heap × ℚ) (pivot : Nat) (he : Heap × ℚ) (j : Nat),
      j ≠ mref.buf → Store.detStep size mref st pivot = .error he →
      he.1.getD j [] = st.1.getD j [] := by
  intro st pivot he j _ hstep
  unfold Store.detStep at hstep
  simp only [] at hstep
  by_cases h1 : |hRead st.1 mref pivot pivot| < 1 / 100000
  · rw [if_pos h1] at hstep
    by_cases h2 : (Store.pivotScan st.1 mref size pivot).2 = 0
    · rw [if_pos h2] at hstep
      obtain rfl : _ = he := (Except.error.injEq _ _).mp hstep
      rfl
    · rw [if_neg h2] at hstep
      by_cases h3 : (Store.pivotScan st.1 mref size pivot).1 ≠ pivot
      · rw [if_pos h3] at hstep
        exact absurd hstep (by simp)
      · rw [if_neg h3] at hstep
        exact absurd hstep (by simp)
  · rw [if_neg h1] at hstep
    exact absurd hstep (by simp)

theorem store_inverse_preserve :
    ∀ (h : Heap) (matrix : HMat) (j : Nat), j < h.length →
      ((Store.inverse h matrix).1).getD j [] = h.getD j [] := by
  intro h matrix j hj
  have hc1 : (Store.getClone h matrix).1 = h ++ [h.getD matrix.buf []] := rfl
  have hcbuf : (Store.getClone h matrix).2.buf = h.length := rfl
  have hlen1 : ((Store.getClone h matrix).1).length = h.length + 1 := by
    rw [hc1]
    simp
  have hgc : ((Store.getClone h matrix).1).getD j [] = h.getD j [] := by
    rw [hc1]
    exact getD_append_left _ _ _ _ hj
  unfold Store.inverse
  by_cases hsq : matrix.rowCount ≠ matrix.colCount
  · rw [if_pos hsq]
  · rw [if_neg hsq]
    simp only []
    split
    · exact hgc
    · next hi hident =>
      unfold Store.getIdentity at hident
      by_cases hz : matrix.colCount = 0
      · rw [if_pos hz] at hident
        exact absurd hident (by simp)
      · rw [if_neg hz] at hident
        simp only [] at hident
        have hpair := (Except.ok.injEq _ _).mp hident
        have hibuf : hi.2.buf = ((Store.getClone h matrix).1).length := by
          rw [← hpair]
          rfl
        obtain ⟨x, hi1⟩ : ∃ x, hi.1 = (Store.getClone h matrix).1 ++ [x] :=
          ⟨_, by rw [← hpair]; rfl⟩
        have hi1getD : (hi.1).getD j [] = h.getD j [] := by
          rw [hi1, getD_append_left _ _ _ _ (by omega)]
          exact hgc
        have hne1 : j ≠ (Store.getClone h matrix).2.buf := by omega
        have hne2 : j ≠ hi.2.buf := by omega
        have hkey := except_foldlM_proj_preserve
          (Store.invStep matrix.colCount (Store.getClone h matrix).2 hi.2)
          id Prod.fst
          (fun j2 => j2 ≠ (Store.getClone h matrix).2.buf ∧ j2 ≠ hi.2.buf)
          (fun s b s2 j2 hj2 hstep =>
            store_invStep_ok_preserve matrix.colCount
              (Store.getClone h matrix).2 hi.2 s b s2 j2 hj2 hstep)
          (fun s b e2 j2 hj2 hstep =>
            store_invStep_error_preserve matrix.colCount
              (Store.getClone h matrix).2 hi.2 s b e2 j2 hj2 hstep)
          (List.range matrix.colCount) hi.1 j ⟨hne1, hne2⟩
        split
        · next h2 hfold2 =>
          rw [hfold2] at hkey
          exact hkey.trans hi1getD
        · next he hfold2 =>
          rw [hfold2] at hkey
          exact hkey.trans hi1getD

theorem store_determinant_preserve :
    ∀ (h : Heap) (matrix : HMat) (j : Nat), j < h.length →
      ((Store.determinant h matrix).1).getD j [] = h.getD j [] := by
  intro h matrix j hj
  have hc1 : (Store.getClone h matrix).1 = h ++ [h.getD matrix.buf []] := rfl
  have hcbuf : (Store.getClone h matrix).2.buf = h.length := rfl
  have hgc : ((Store.getClone h matrix).1).getD j [] = h.getD j [] := by
    rw [hc1]
    exact getD_append_left _ _ _ _ hj
  unfold Store.determinant
  by_cases hsq : matrix.rowCount ≠ matrix.colCount
  · rw [if_pos hsq]
  · rw [if_neg hsq]
    simp only []
    have hkey := except_foldlM_proj_preserve
      (Store.detStep matrix.rowCount (Store.getClone h matrix).2)
      Prod.fst Prod.fst (fun j2 => j2 ≠ (Store.getClone h matrix).2.buf)
      (fun s b s2 j2 hj2 hstep =>
        store_detStep_ok_preserve matrix.rowCount
          (Store.getClone h matrix).2 s b s2 j2 hj2 hstep)
      (fun s b e2 j2 hj2 hstep =>
        store_detStep_error_preserve matrix.rowCount
          (Store.getClone h matrix).2 s b e2 j2 hj2 hstep)
      (List.range matrix.rowCount) ((Store.getClone h matrix).1, 1) j (by omega)
    split
    · next he hfold2 =>
      rw [hfold2] at hkey
      exact hkey.trans hgc
    · next st hfold2 =>
      rw [hfold2] at hkey
      exact hkey.trans hgc

theorem store_add_preserve :
    ∀ (h : Heap) (a b : HMat) (j : Nat), j < h.length →
      ((Store.add h a b).1).getD j [] = h.getD j [] := by
  intro h a b j hj
  unfold Store.add
  by_cases hc : ¬(a.rowCount = b.rowCount ∧ a.colCount = b.colCount)
  · rw [if_pos hc]
  · rw [if_neg hc]
    exact getD_append_left _ _ _ _ hj

theorem store_subtract_preserve :
    ∀ (h : Heap) (a b : HMat) (j : Nat), j < h.length →
      ((Store.subtract h a b).1).getD j [] = h.getD j [] := by
  intro h a b j hj
  unfold Store.subtract
  by_cases hc : ¬(a.rowCount = b.rowCount ∧ a.colCount = b.colCount)
  · rw [if_pos hc]
  · rw [if_neg hc]
    exact getD_append_left _ _ _ _ hj

theorem store_multiplyScalar_preserve :
    ∀ (h : Heap) (m : HMat) (sc : ℚ) (j : Nat), j < h.length →
      ((Store.multiplyScalar h m sc).1).getD j [] = h.getD j [] := by
  intro h m sc j hj
  unfold Store.multiplyScalar
  exact getD_append_left _ _ _ _ hj

theorem store_multiply_preserve :
    ∀ (h : Heap) (a b : HMat) (j : Nat), j < h.length →
      ((Store.multiply h a b).1).getD j [] = h.getD j [] := by
  intro h a b j hj
  unfold Store.multiply
  by_cases hc : a.colCount ≠ b.rowCount
  · rw [if_pos hc]
  · rw [if_neg hc]
    exact getD_append_left _ _ _ _ hj

/-- C9: no public operation modifies its argument matrices.  In the heap
model every buffer that existed before a call to `add`, `subtract`,
`multiplyScalar`, `multiply`, `equals`, `toRowMajor2dArray`, `inverse` or
`determinant` holds the same contents afterwards — also when the operation
throws — because the pure operations only read their inputs and allocate
fresh result buffers, and `inverse`/`determinant` mutate only the freshly
allocated private clone (and, for `inverse`, the fresh identity buffer).
The dimension fields live in the immutable matrix records and no operation
rebinds them. -/
theorem ops_do_not_mutate_inputs :
    (∀ (h : Heap) (a b : HMat) (j : Nat), j < h.length →
      ((Store.add h a b).1).getD j [] = h.getD j []) ∧
    (∀ (h : Heap) (a b : HMat) (j : Nat), j < h.length →
      ((Store.subtract h a b).1).getD j [] = h.getD j []) ∧
    (∀ (h : Heap) (m : HMat) (sc : ℚ) (j : Nat), j < h.length →
      ((Store.multiplyScalar h m sc).1).getD j [] = h.getD j []) ∧
    (∀ (h : Heap) (a b : HMat) (j : Nat), j < h.length →
      ((Store.multiply h a b).1).getD j [] = h.getD j []) ∧
    (∀ (h : Heap) (a b : HMat) (e : Option ℤ), (Store.equals h a b e).1 = h) ∧
    (∀ (h : Heap) (m : HMat), (Store.toRowMajor2dArray h m).1 = h) ∧
    (∀ (h : Heap) (m : HMat) (j : Nat), j < h.length →
      ((Store.inverse h m).1).getD j [] = h.getD j []) ∧
    (∀ (h : Heap) (m : HMat) (j : Nat), j < h.length →
      ((Store.determinant h m).1).getD j [] = h.getD j []) :=
  ⟨store_add_preserve, store_subtract_preserve, store_multiplyScalar_preserve,
    store_multiply_preserve, fun _ _ _ _ => rfl, fun _ _ => rfl,
    store_inverse_preserve, store_determinant_preserve⟩
